import Mathlib

/-!
Verification development for the room-relay core of `server.js`
(a WebSocket multiplayer session relay).

The server state is embedded shallowly: the process-wide `rooms` Map and the
per-connection attributes (`ws.roomCode`, `ws.isHost`, `ws.playerId`,
`ws.playerInfo`, `ws.readyState`) become association lists inside a
`ServerState`; each message handler becomes a pure function
`ServerState → ... → ServerState × List (Nat × OutMsg)` returning the new
state together with the sequence of `send` calls it performs, in order.
JS objects / Maps are association lists with insertion-order semantics
(`setKey` overwrites in place, `delKey` removes, `getKey` looks up).
-/

namespace GodotServer

/-- A JSON-ish payload value carried inside messages and cached room state. -/
inductive Val where
  | vNull : Val
  | vBool : Bool → Val
  | vInt : Int → Val
  | vStr : String → Val
  | vVec : Int → Int → Int → Val
  deriving DecidableEq, Repr

/-- One entry of `room.playerData`: `{info, position, animState, sprinting}`. -/
structure PlayerRecord where
  info : String
  position : Val
  animState : Val
  sprinting : Val
  deriving DecidableEq, Repr

/-- The payload of an `enemy_state` message: an object carrying an
`enemy_id` field (read by `broadcastEnemyState`) plus the rest of the data. -/
structure EnemyData where
  enemy_id : String
  payload : Val
  deriving DecidableEq, Repr

/-- A room, as built by `createRoom` in `server.js`. -/
structure Room where
  host : Nat
  clients : List Nat
  hostInfo : String
  playerData : List (String × PlayerRecord)
  environmentState : List (String × Val)
  puzzleStates : List (String × Val)
  enemyStates : List (String × EnemyData)
  deriving DecidableEq, Repr

/-- The per-connection attributes the server stores on each `ws` object,
plus `isOpen` modelling `ws.readyState === WebSocket.OPEN`. -/
structure Conn where
  roomCode : Option String
  isHost : Bool
  playerId : String
  playerInfo : String
  isOpen : Bool
  deriving DecidableEq, Repr

instance : Inhabited Conn := ⟨⟨none, false, "", "", false⟩⟩

/-- Whole-server state: the `rooms` registry plus every connection's
attributes, both keyed association lists. -/
structure ServerState where
  rooms : List (String × Room)
  conns : List (Nat × Conn)
  deriving DecidableEq, Repr

/-- Outbound messages (`JSON.stringify` payloads handed to `send`). -/
inductive OutMsg where
  | roomCreated : String → String → OutMsg
  | joinFailed : String → OutMsg
  | joinSuccess : String → String → List (String × PlayerRecord) → OutMsg
  | playerJoined : String → String → OutMsg
  | playerLeft : String → String → OutMsg
  | hostDisconnected : OutMsg
  | playerPosition : String → Val → OutMsg
  | playerAnimation : String → Val → Val → OutMsg
  | chatMessage : String → Val → String → OutMsg
  | environmentUpdate : List (String × Val) → OutMsg
  | puzzleUpdate : String → Val → OutMsg
  | interactionMsg : Val → Val → Val → String → OutMsg
  | enemyState : EnemyData → OutMsg
  | enemyCapture : Val → Val → OutMsg
  | mazeData : Val → OutMsg
  deriving DecidableEq, Repr

/-- Association-list lookup (JS `Map.get` / object property read). -/
def getKey {κ α : Type} [DecidableEq κ] : List (κ × α) → κ → Option α
  | [], _ => none
  | (k, v) :: rest, k' => if k = k' then some v else getKey rest k'

/-- Association-list write (JS `Map.set` / object property assignment):
overwrite in place if the key is present, append otherwise. -/
def setKey {κ α : Type} [DecidableEq κ] : List (κ × α) → κ → α → List (κ × α)
  | [], k, v => [(k, v)]
  | (k', v') :: rest, k, v =>
    if k' = k then (k, v) :: rest else (k', v') :: setKey rest k v

/-- Association-list removal (JS `Map.delete` / `delete obj[k]`). -/
def delKey {κ α : Type} [DecidableEq κ] : List (κ × α) → κ → List (κ × α)
  | [], _ => []
  | (k', v') :: rest, k =>
    if k' = k then rest else (k', v') :: delKey rest k

/-- The keys of an association list, in order. -/
def keysOf {κ α : Type} (l : List (κ × α)) : List κ := l.map Prod.fst

/-- Remove the first occurrence of an element
(JS `arr.splice(arr.indexOf(x), 1)`). -/
def removeFirst : List Nat → Nat → List Nat
  | [], _ => []
  | c :: rest, w => if c = w then rest else c :: removeFirst rest w

/-- Read a connection's attributes; a connection the server never touched
has all attributes unset. -/
def getConn (s : ServerState) (i : Nat) : Conn :=
  (getKey s.conns i).getD default

/-- Overwrite a connection's attributes. -/
def setConn (s : ServerState) (i : Nat) (c : Conn) : ServerState :=
  { s with conns := setKey s.conns i c }

/-- The `forEach`/`if (client !== ws && client.readyState === OPEN) client.send(m)`
fanout pattern: sends `m` to every target that is open and not the excluded
connection, in list order. `excl := none` when the loop has no `!== ws` test.
Handlers whose preceding mutation never touches the connection table check
openness against their pre-state, which reads identically. -/
def openWrites (s : ServerState) (excl : Option Nat) (targets : List Nat)
    (m : OutMsg) : List (Nat × OutMsg) :=
  targets.filterMap fun c =>
    if excl ≠ some c ∧ (getConn s c).isOpen then some (c, m) else none

/-- The `if (room.host.readyState === OPEN) room.host.send(m)` pattern. -/
def sendIfOpen (s : ServerState) (host : Nat) (m : OutMsg) : List (Nat × OutMsg) :=
  if (getConn s host).isOpen then [(host, m)] else []

/-- JS `String.prototype.toUpperCase()`: uppercase character by character
(on the room-code alphabet this is exactly ASCII uppercasing). -/
def jsToUpper (str : String) : String := ⟨str.data.map Char.toUpper⟩

/-- `createRoom(ws, msg)`. The generated room code (result of the
`generateRoomCode` retry loop) is passed in as `code`; its freshness is the
loop's postcondition and appears as a hypothesis where needed. -/
def createRoom (s : ServerState) (ws : Nat) (code : String) (pinfo : String) :
    ServerState × List (Nat × OutMsg) :=
  let room : Room :=
    { host := ws
      clients := []
      hostInfo := pinfo
      playerData := [("host",
        { info := pinfo, position := Val.vVec 0 0 0,
          animState := Val.vInt 0, sprinting := Val.vBool false })]
      environmentState := []
      puzzleStates := []
      enemyStates := [] }
  let s1 : ServerState := { s with rooms := setKey s.rooms code room }
  let s2 := setConn s1 ws
    { getConn s1 ws with
      roomCode := some code
      isHost := true
      playerId := "host"
      playerInfo := pinfo }
  (s2, [(ws, OutMsg.roomCreated code "host")])

/-- `joinRoom(ws, msg)`: lookup after uppercasing, the two failure replies,
then the member/state mutation, the `join_success` reply, the cached-state
replay to the joiner, and the `player_joined` fanout (the write to the host
is unguarded in the source, the writes to the other guests are guarded). -/
def joinRoom (s : ServerState) (ws : Nat) (msgRoomCode : String) (pinfo : String) :
    ServerState × List (Nat × OutMsg) :=
  let roomCode := jsToUpper msgRoomCode
  match getKey s.rooms roomCode with
  | none => (s, [(ws, OutMsg.joinFailed "Room not found")])
  | some room =>
    if room.clients.length ≥ 5 then
      (s, [(ws, OutMsg.joinFailed "Room full (max 6 players)")])
    else
      let playerId := "player_" ++ toString (room.clients.length + 1)
      let s1 := setConn s ws
        { getConn s ws with
          roomCode := some roomCode
          isHost := false
          playerId := playerId
          playerInfo := pinfo }
      let newRec : PlayerRecord :=
        { info := pinfo, position := Val.vVec 0 0 0,
          animState := Val.vInt 0, sprinting := Val.vBool false }
      let room1 : Room := { room with
        clients := room.clients ++ [ws]
        playerData := setKey room.playerData playerId newRec }
      let s2 : ServerState := { s1 with rooms := setKey s1.rooms roomCode room1 }
      let replayEnv : List (Nat × OutMsg) :=
        if room.environmentState.length > 0 then
          [(ws, OutMsg.environmentUpdate room.environmentState)]
        else []
      let replayPuzzles := room.puzzleStates.map
        fun p => (ws, OutMsg.puzzleUpdate p.1 p.2)
      let replayEnemies := room.enemyStates.map
        fun e => (ws, OutMsg.enemyState e.2)
      let newPlayerMsg := OutMsg.playerJoined playerId pinfo
      (s2, (ws, OutMsg.joinSuccess roomCode playerId room1.playerData)
            :: (replayEnv ++ replayPuzzles ++ replayEnemies
                ++ (room.host, newPlayerMsg)
                :: openWrites s2 (some ws) room1.clients newPlayerMsg))

/-- `broadcastPosition(ws, msg)`. -/
def broadcastPosition (s : ServerState) (ws : Nat) (position : Val) :
    ServerState × List (Nat × OutMsg) :=
  let conn := getConn s ws
  match conn.roomCode with
  | none => (s, [])
  | some code =>
    match getKey s.rooms code with
    | none => (s, [])
    | some room =>
      let room1 : Room :=
        match getKey room.playerData conn.playerId with
        | some rec =>
          let pd := setKey room.playerData conn.playerId { rec with position := position }
          { room with playerData := pd }
        | none => room
      let s1 : ServerState := { s with rooms := setKey s.rooms code room1 }
      let m := OutMsg.playerPosition conn.playerId position
      if conn.isHost then
        (s1, openWrites s none room1.clients m)
      else
        (s1, sendIfOpen s room1.host m ++ openWrites s (some ws) room1.clients m)

/-- `broadcastAnimation(ws, msg)`. -/
def broadcastAnimation (s : ServerState) (ws : Nat) (animState sprinting : Val) :
    ServerState × List (Nat × OutMsg) :=
  let conn := getConn s ws
  match conn.roomCode with
  | none => (s, [])
  | some code =>
    match getKey s.rooms code with
    | none => (s, [])
    | some room =>
      let room1 : Room :=
        match getKey room.playerData conn.playerId with
        | some rec =>
          let rec1 : PlayerRecord := { rec with animState := animState, sprinting := sprinting }
          let pd := setKey room.playerData conn.playerId rec1
          { room with playerData := pd }
        | none => room
      let s1 : ServerState := { s with rooms := setKey s.rooms code room1 }
      let m := OutMsg.playerAnimation conn.playerId animState sprinting
      if conn.isHost then
        (s1, openWrites s none room1.clients m)
      else
        (s1, sendIfOpen s room1.host m ++ openWrites s (some ws) room1.clients m)

/-- `broadcastChat(ws, msg)`: no room-state mutation; the echo to the sender
itself (`ws.send(chatMsg)`) is unguarded in the source. -/
def broadcastChat (s : ServerState) (ws : Nat) (message : Val) :
    ServerState × List (Nat × OutMsg) :=
  let conn := getConn s ws
  match conn.roomCode with
  | none => (s, [])
  | some code =>
    match getKey s.rooms code with
    | none => (s, [])
    | some room =>
      let m := OutMsg.chatMessage conn.playerInfo message conn.playerId
      if conn.isHost then
        (s, (ws, m) :: openWrites s none room.clients m)
      else
        (s, (ws, m) :: (sendIfOpen s room.host m ++ openWrites s (some ws) room.clients m))

/-- `broadcastEnvironment(ws, msg)`: host-only (`!room || !ws.isHost` drop). -/
def broadcastEnvironment (s : ServerState) (ws : Nat) (data : List (String × Val)) :
    ServerState × List (Nat × OutMsg) :=
  let conn := getConn s ws
  match conn.roomCode with
  | none => (s, [])
  | some code =>
    match getKey s.rooms code with
    | none => (s, [])
    | some room =>
      if conn.isHost then
        let room1 : Room := { room with environmentState := data }
        let s1 : ServerState := { s with rooms := setKey s.rooms code room1 }
        (s1, openWrites s none room1.clients (OutMsg.environmentUpdate data))
      else (s, [])

/-- `broadcastPuzzle(ws, msg)`: upsert `puzzleStates[puzzleId]`, star fanout. -/
def broadcastPuzzle (s : ServerState) (ws : Nat) (puzzleId : String) (state : Val) :
    ServerState × List (Nat × OutMsg) :=
  let conn := getConn s ws
  match conn.roomCode with
  | none => (s, [])
  | some code =>
    match getKey s.rooms code with
    | none => (s, [])
    | some room =>
      let room1 : Room :=
        { room with puzzleStates := setKey room.puzzleStates puzzleId state }
      let s1 : ServerState := { s with rooms := setKey s.rooms code room1 }
      let m := OutMsg.puzzleUpdate puzzleId state
      if conn.isHost then
        (s1, openWrites s none room1.clients m)
      else
        (s1, sendIfOpen s room1.host m ++ openWrites s (some ws) room1.clients m)

/-- `broadcastInteraction(ws, msg)`: pure relay, star fanout. -/
def broadcastInteraction (s : ServerState) (ws : Nat) (objectId action data : Val) :
    ServerState × List (Nat × OutMsg) :=
  let conn := getConn s ws
  match conn.roomCode with
  | none => (s, [])
  | some code =>
    match getKey s.rooms code with
    | none => (s, [])
    | some room =>
      let m := OutMsg.interactionMsg objectId action data conn.playerId
      if conn.isHost then
        (s, openWrites s none room.clients m)
      else
        (s, sendIfOpen s room.host m ++ openWrites s (some ws) room.clients m)

/-- `broadcastEnemyState(ws, msg)`: host-only; upsert
`enemyStates[data.enemy_id]`, broadcast to the guests. -/
def broadcastEnemyState (s : ServerState) (ws : Nat) (data : EnemyData) :
    ServerState × List (Nat × OutMsg) :=
  let conn := getConn s ws
  match conn.roomCode with
  | none => (s, [])
  | some code =>
    match getKey s.rooms code with
    | none => (s, [])
    | some room =>
      if conn.isHost then
        let room1 : Room :=
          { room with enemyStates := setKey room.enemyStates data.enemy_id data }
        let s1 : ServerState := { s with rooms := setKey s.rooms code room1 }
        (s1, openWrites s none room1.clients (OutMsg.enemyState data))
      else (s, [])

/-- `broadcastEnemyCapture(ws, msg)`: host-only pure relay to the guests. -/
def broadcastEnemyCapture (s : ServerState) (ws : Nat) (enemyId playerId : Val) :
    ServerState × List (Nat × OutMsg) :=
  let conn := getConn s ws
  match conn.roomCode with
  | none => (s, [])
  | some code =>
    match getKey s.rooms code with
    | none => (s, [])
    | some room =>
      if conn.isHost then
        (s, openWrites s none room.clients (OutMsg.enemyCapture enemyId playerId))
      else (s, [])

/-- The host-teardown loop of `handleDisconnect`: for each client in order,
if its transport is open, send `host_disconnected` and close it. -/
def hostTeardown : ServerState → List Nat → ServerState × List (Nat × OutMsg)
  | s, [] => (s, [])
  | s, c :: rest =>
    if (getConn s c).isOpen then
      let s1 := setConn s c { getConn s c with isOpen := false }
      let r := hostTeardown s1 rest
      (r.1, (c, OutMsg.hostDisconnected) :: r.2)
    else hostTeardown s rest

/-- `handleDisconnect(ws)`: no-op when unbound or when the bound room is
gone; host branch tears the room down and deletes it; guest branch removes
the first occurrence of `ws` from `clients`, deletes its `playerData` entry
and notifies the host (guarded) and the remaining clients (guarded). -/
def handleDisconnect (s : ServerState) (ws : Nat) :
    ServerState × List (Nat × OutMsg) :=
  let conn := getConn s ws
  match conn.roomCode with
  | none => (s, [])
  | some code =>
    match getKey s.rooms code with
    | none => (s, [])
    | some room =>
      if conn.isHost then
        let r := hostTeardown s room.clients
        ({ r.1 with rooms := delKey r.1.rooms code }, r.2)
      else
        if ws ∈ room.clients then
          let clients1 := removeFirst room.clients ws
          let room1 : Room := { room with
            clients := clients1
            playerData := delKey room.playerData conn.playerId }
          let s1 : ServerState := { s with rooms := setKey s.rooms code room1 }
          let m := OutMsg.playerLeft conn.playerId conn.playerInfo
          (s1, sendIfOpen s room.host m ++ openWrites s none clients1 m)
        else (s, [])

/-- `leaveRoom(ws)` just calls `handleDisconnect(ws)`. -/
def leaveRoom (s : ServerState) (ws : Nat) : ServerState × List (Nat × OutMsg) :=
  handleDisconnect s ws

/-- Inbound message payloads, one constructor per `msg.type` the switch in
`handleMessage` can receive (plus `maze_data` and an unrecognized type,
neither of which has a case in the source switch). `create_room` is
dispatched separately because it consumes the generated room code. -/
inductive InMsg where
  | join_room : String → String → InMsg
  | player_position : Val → InMsg
  | player_animation : Val → Val → InMsg
  | chat_message : Val → InMsg
  | environment_update : List (String × Val) → InMsg
  | puzzle_update : String → Val → InMsg
  | interaction : Val → Val → Val → InMsg
  | enemy_state : EnemyData → InMsg
  | enemy_capture : Val → Val → InMsg
  | maze_data : Val → InMsg
  | leave_room : InMsg
  | unknown : InMsg
  deriving DecidableEq, Repr

/-- The dispatch switch of `handleMessage`. A `maze_data` or unrecognized
type has no case and falls through: nothing happens. -/
def handleMessage (s : ServerState) (ws : Nat) (msg : InMsg) :
    ServerState × List (Nat × OutMsg) :=
  match msg with
  | .join_room rc pi => joinRoom s ws rc pi
  | .player_position p => broadcastPosition s ws p
  | .player_animation a sp => broadcastAnimation s ws a sp
  | .chat_message m => broadcastChat s ws m
  | .environment_update d => broadcastEnvironment s ws d
  | .puzzle_update pid st => broadcastPuzzle s ws pid st
  | .interaction o a d => broadcastInteraction s ws o a d
  | .enemy_state d => broadcastEnemyState s ws d
  | .enemy_capture e p => broadcastEnemyCapture s ws e p
  | .maze_data _ => (s, [])
  | .leave_room => leaveRoom s ws
  | .unknown => (s, [])

/-- One externally visible event: a `create_room` (with the code the
generator produced), any other inbound message, or a transport close /
liveness failure (both run `handleDisconnect`). -/
inductive Event where
  | create : Nat → String → String → Event
  | inbound : Nat → InMsg → Event
  | closeEvt : Nat → Event
  deriving DecidableEq, Repr

/-- State reached after one event (fanout writes discarded). -/
def runEvent (s : ServerState) : Event → ServerState
  | .create ws code pinfo => (createRoom s ws code pinfo).1
  | .inbound ws msg => (handleMessage s ws msg).1
  | .closeEvt ws => (handleDisconnect s ws).1

/-- State reached after a sequence of events. -/
def runTrace : ServerState → List Event → ServerState
  | s, [] => s
  | s, e :: rest => runTrace (runEvent s e) rest

/-- Event sanity, guaranteed by the transport and the code generator:
a generated room code is fresh (the `while (rooms.has(roomCode))` loop), and
a connection sends `create_room`/`join_room` only while not yet bound to a
room (each client binds once, as §3 of the protocol describes). -/
def wfEvent (s : ServerState) : Event → Bool
  | .create ws code _ =>
    (getKey s.rooms code).isNone && (getConn s ws).roomCode.isNone
  | .inbound ws msg =>
    match msg with
    | .join_room _ _ => (getConn s ws).roomCode.isNone
    | _ => true
  | .closeEvt _ => true

/-- Every event of the trace is sane in the state where it fires. -/
def wfTrace : ServerState → List Event → Bool
  | _, [] => true
  | s, e :: rest => wfEvent s e && wfTrace (runEvent s e) rest

/-- The server's initial state: empty registry, no connection touched yet. -/
def initState : ServerState := { rooms := [], conns := [] }

/-- The playerIds of a room's guests, in join order. -/
def guestIds (s : ServerState) (room : Room) : List String :=
  room.clients.map fun c => (getConn s c).playerId

/-- Two lists contain the same elements (set equality). -/
def sameSet (a b : List String) : Bool :=
  a.all (b.contains ·) && b.all (a.contains ·)

/-- Decides, for the room registered under `code`, whether the keys of its
`playerData` equal {"host"} ∪ {playerId of every connection in `clients`}. -/
def c2holdsAt (s : ServerState) (code : String) : Bool :=
  match getKey s.rooms code with
  | none => true
  | some room => sameSet (keysOf room.playerData) ("host" :: guestIds s room)

/-! ### Association-list lemmas -/

theorem keysOf_nil {κ α : Type} : keysOf ([] : List (κ × α)) = [] := rfl

theorem keysOf_cons {κ α : Type} (p : κ × α) (rest : List (κ × α)) :
    keysOf (p :: rest) = p.1 :: keysOf rest := rfl

theorem getKey_nil {κ α : Type} [DecidableEq κ] (k : κ) :
    getKey ([] : List (κ × α)) k = none := rfl

theorem getKey_cons {κ α : Type} [DecidableEq κ] (p : κ × α) (rest : List (κ × α)) (k : κ) :
    getKey (p :: rest) k = if p.1 = k then some p.2 else getKey rest k := by
  cases p; rfl

theorem setKey_cons {κ α : Type} [DecidableEq κ] (p : κ × α) (rest : List (κ × α)) (k : κ) (v : α) :
    setKey (p :: rest) k v = if p.1 = k then (k, v) :: rest else p :: setKey rest k v := by
  cases p; rfl

theorem delKey_cons {κ α : Type} [DecidableEq κ] (p : κ × α) (rest : List (κ × α)) (k : κ) :
    delKey (p :: rest) k = if p.1 = k then rest else p :: delKey rest k := by
  cases p; rfl

theorem getKey_setKey_self {κ α : Type} [DecidableEq κ] :
    ∀ (l : List (κ × α)) (k : κ) (v : α), getKey (setKey l k v) k = some v
  | [], k, v => by simp [setKey, getKey]
  | p :: rest, k, v => by
    by_cases h : p.1 = k
    · rw [setKey_cons, if_pos h, getKey_cons]
      simp
    · rw [setKey_cons, if_neg h, getKey_cons, if_neg h]
      exact getKey_setKey_self rest k v

theorem getKey_setKey_ne {κ α : Type} [DecidableEq κ] :
    ∀ (l : List (κ × α)) (k k' : κ) (v : α), k ≠ k' →
      getKey (setKey l k v) k' = getKey l k'
  | [], k, k', v, h => by simp [setKey, getKey, h]
  | p :: rest, k, k', v, h => by
    by_cases h0 : p.1 = k
    · rw [setKey_cons, if_pos h0, getKey_cons, getKey_cons, if_neg h, h0, if_neg h]
    · rw [setKey_cons, if_neg h0, getKey_cons, getKey_cons]
      by_cases h1 : p.1 = k'
      · rw [if_pos h1, if_pos h1]
      · rw [if_neg h1, if_neg h1]
        exact getKey_setKey_ne rest k k' v h

theorem getKey_mem_keysOf {κ α : Type} [DecidableEq κ] :
    ∀ (l : List (κ × α)) (k : κ) (v : α), getKey l k = some v → k ∈ keysOf l
  | [], k, v, h => by simp [getKey] at h
  | p :: rest, k, v, h => by
    rw [getKey_cons] at h
    rw [keysOf_cons]
    by_cases h0 : p.1 = k
    · exact h0 ▸ List.mem_cons_self _ _
    · rw [if_neg h0] at h
      exact List.mem_cons_of_mem _ (getKey_mem_keysOf rest k v h)

theorem not_mem_keysOf_of_getKey_none {κ α : Type} [DecidableEq κ] :
    ∀ (l : List (κ × α)) (k : κ), getKey l k = none → k ∉ keysOf l
  | [], k, _ => by simp [keysOf_nil]
  | p :: rest, k, h => by
    rw [getKey_cons] at h
    by_cases h0 : p.1 = k
    · rw [if_pos h0] at h; exact absurd h (by simp)
    · rw [if_neg h0] at h
      rw [keysOf_cons]
      intro hk
      rcases List.mem_cons.mp hk with h1 | h1
      · exact h0 h1.symm
      · exact not_mem_keysOf_of_getKey_none rest k h h1

theorem keysOf_setKey_of_mem {κ α : Type} [DecidableEq κ] :
    ∀ (l : List (κ × α)) (k : κ) (v w : α), getKey l k = some w →
      keysOf (setKey l k v) = keysOf l
  | [], k, v, w, h => by simp [getKey] at h
  | p :: rest, k, v, w, h => by
    rw [getKey_cons] at h
    by_cases h0 : p.1 = k
    · rw [setKey_cons, if_pos h0, keysOf_cons, keysOf_cons, h0]
    · rw [if_neg h0] at h
      rw [setKey_cons, if_neg h0, keysOf_cons, keysOf_cons,
        keysOf_setKey_of_mem rest k v w h]

theorem mem_keysOf_setKey {κ α : Type} [DecidableEq κ] :
    ∀ (l : List (κ × α)) (k k' : κ) (v : α), k' ∈ keysOf (setKey l k v) →
      k' ∈ keysOf l ∨ k' = k
  | [], k, k', v, h => by
    rw [setKey] at h
    rcases List.mem_cons.mp (by simpa [keysOf_cons] using h) with h1 | h1
    · exact Or.inr h1
    · simp [keysOf_nil] at h1
  | p :: rest, k, k', v, h => by
    by_cases h0 : p.1 = k
    · rw [setKey_cons, if_pos h0, keysOf_cons] at h
      rcases List.mem_cons.mp h with h1 | h1
      · exact Or.inr h1
      · exact Or.inl (by rw [keysOf_cons]; exact List.mem_cons_of_mem _ h1)
    · rw [setKey_cons, if_neg h0, keysOf_cons] at h
      rcases List.mem_cons.mp h with h1 | h1
      · exact Or.inl (by rw [keysOf_cons, h1]; exact List.mem_cons_self _ _)
      · rcases mem_keysOf_setKey rest k k' v h1 with h2 | h2
        · exact Or.inl (by rw [keysOf_cons]; exact List.mem_cons_of_mem _ h2)
        · exact Or.inr h2

theorem nodup_keysOf_setKey {κ α : Type} [DecidableEq κ] :
    ∀ (l : List (κ × α)) (k : κ) (v : α), (keysOf l).Nodup →
      (keysOf (setKey l k v)).Nodup
  | [], k, v, _ => by simp [setKey, keysOf_cons, keysOf_nil]
  | p :: rest, k, v, h => by
    rw [keysOf_cons] at h
    have h1 : p.1 ∉ keysOf rest := (List.nodup_cons.mp h).1
    have h2 : (keysOf rest).Nodup := (List.nodup_cons.mp h).2
    by_cases h0 : p.1 = k
    · rw [setKey_cons, if_pos h0, keysOf_cons]
      exact List.nodup_cons.mpr ⟨h0 ▸ h1, h2⟩
    · rw [setKey_cons, if_neg h0, keysOf_cons]
      refine List.nodup_cons.mpr ⟨?_, nodup_keysOf_setKey rest k v h2⟩
      intro hp
      rcases mem_keysOf_setKey rest k p.1 v hp with h3 | h3
      · exact h1 h3
      · exact h0 h3

theorem mem_keysOf_delKey {κ α : Type} [DecidableEq κ] :
    ∀ (l : List (κ × α)) (k k' : κ), k' ∈ keysOf (delKey l k) → k' ∈ keysOf l
  | [], k, k', h => by simp [delKey, keysOf_nil] at h
  | p :: rest, k, k', h => by
    by_cases h0 : p.1 = k
    · rw [delKey_cons, if_pos h0] at h
      rw [keysOf_cons]
      exact List.mem_cons_of_mem _ h
    · rw [delKey_cons, if_neg h0, keysOf_cons] at h
      rw [keysOf_cons]
      rcases List.mem_cons.mp h with h1 | h1
      · exact h1 ▸ List.mem_cons_self _ _
      · exact List.mem_cons_of_mem _ (mem_keysOf_delKey rest k k' h1)

theorem ne_of_mem_keysOf_delKey {κ α : Type} [DecidableEq κ] :
    ∀ (l : List (κ × α)) (k k' : κ), (keysOf l).Nodup →
      k' ∈ keysOf (delKey l k) → k' ≠ k
  | [], k, k', _, h => by simp [delKey, keysOf_nil] at h
  | p :: rest, k, k', hnd, h => by
    rw [keysOf_cons] at hnd
    have h1 : p.1 ∉ keysOf rest := (List.nodup_cons.mp hnd).1
    have h2 : (keysOf rest).Nodup := (List.nodup_cons.mp hnd).2
    by_cases h0 : p.1 = k
    · rw [delKey_cons, if_pos h0] at h
      intro he
      exact h1 (h0 ▸ he ▸ h)
    · rw [delKey_cons, if_neg h0, keysOf_cons] at h
      rcases List.mem_cons.mp h with h3 | h3
      · exact h3 ▸ h0
      · exact ne_of_mem_keysOf_delKey rest k k' h2 h3

theorem getKey_delKey_self {κ α : Type} [DecidableEq κ] :
    ∀ (l : List (κ × α)) (k : κ), (keysOf l).Nodup → getKey (delKey l k) k = none
  | [], k, _ => by simp [delKey, getKey]
  | p :: rest, k, hnd => by
    rw [keysOf_cons] at hnd
    have h1 : p.1 ∉ keysOf rest := (List.nodup_cons.mp hnd).1
    have h2 : (keysOf rest).Nodup := (List.nodup_cons.mp hnd).2
    by_cases h0 : p.1 = k
    · rw [delKey_cons, if_pos h0]
      cases he : getKey rest k with
      | none => rfl
      | some w => exact absurd (getKey_mem_keysOf rest k w he) (h0 ▸ h1)
    · rw [delKey_cons, if_neg h0, getKey_cons, if_neg h0]
      exact getKey_delKey_self rest k h2

theorem getKey_delKey_ne {κ α : Type} [DecidableEq κ] :
    ∀ (l : List (κ × α)) (k k' : κ), k ≠ k' →
      getKey (delKey l k) k' = getKey l k'
  | [], k, k', _ => by simp [delKey]
  | p :: rest, k, k', h => by
    by_cases h0 : p.1 = k
    · rw [delKey_cons, if_pos h0, getKey_cons, if_neg (h0 ▸ h : p.1 ≠ k')]
    · rw [delKey_cons, if_neg h0, getKey_cons, getKey_cons]
      by_cases h1 : p.1 = k'
      · rw [if_pos h1, if_pos h1]
      · rw [if_neg h1, if_neg h1]
        exact getKey_delKey_ne rest k k' h

theorem nodup_keysOf_delKey {κ α : Type} [DecidableEq κ] :
    ∀ (l : List (κ × α)) (k : κ), (keysOf l).Nodup → (keysOf (delKey l k)).Nodup
  | [], k, _ => by simp [delKey, keysOf_nil]
  | p :: rest, k, hnd => by
    rw [keysOf_cons] at hnd
    have h1 : p.1 ∉ keysOf rest := (List.nodup_cons.mp hnd).1
    have h2 : (keysOf rest).Nodup := (List.nodup_cons.mp hnd).2
    by_cases h0 : p.1 = k
    · rw [delKey_cons, if_pos h0]; exact h2
    · rw [delKey_cons, if_neg h0, keysOf_cons]
      refine List.nodup_cons.mpr ⟨?_, nodup_keysOf_delKey rest k h2⟩
      intro hp
      exact h1 (mem_keysOf_delKey rest k p.1 hp)
/-! ### removeFirst lemmas -/

theorem mem_of_mem_removeFirst :
    ∀ (l : List Nat) (w c : Nat), c ∈ removeFirst l w → c ∈ l
  | [], w, c, h => by simp [removeFirst] at h
  | x :: rest, w, c, h => by
    by_cases h0 : x = w
    · simp [removeFirst, h0] at h
      exact List.mem_cons_of_mem _ h
    · simp [removeFirst, h0] at h
      rcases h with h | h
      · simp [h]
      · exact List.mem_cons_of_mem _ (mem_of_mem_removeFirst rest w c h)

theorem mem_removeFirst_of_ne :
    ∀ (l : List Nat) (w c : Nat), c ∈ l → c ≠ w → c ∈ removeFirst l w
  | [], w, c, h, _ => by simp at h
  | x :: rest, w, c, h, hne => by
    by_cases h0 : x = w
    · simp [removeFirst, h0]
      rcases List.mem_cons.mp h with h | h
      · exact absurd (h.trans h0) hne
      · exact h
    · simp [removeFirst, h0]
      rcases List.mem_cons.mp h with h | h
      · exact Or.inl h
      · exact Or.inr (mem_removeFirst_of_ne rest w c h hne)

theorem not_mem_removeFirst_self :
    ∀ (l : List Nat) (w : Nat), l.count w ≤ 1 → w ∉ removeFirst l w
  | [], w, _ => by simp [removeFirst]
  | x :: rest, w, h => by
    by_cases h0 : x = w
    · subst h0
      have hrf : removeFirst (x :: rest) x = rest := by simp [removeFirst]
      rw [hrf]
      intro hw
      have hpos : 0 < rest.count x := List.count_pos_iff.mpr hw
      rw [List.count_cons] at h
      simp at h
      omega
    · simp only [removeFirst, if_neg h0, List.mem_cons]
      rintro (he | he)
      · exact h0 he.symm
      · refine not_mem_removeFirst_self rest w ?_ he
        rw [List.count_cons] at h
        have hb : (x == w) = false := beq_eq_false_iff_ne.mpr h0
        simpa [hb] using h

/-! ### Connection-attribute lemmas -/

theorem getConn_setConn_self (s : ServerState) (i : Nat) (c : Conn) :
    getConn (setConn s i c) i = c := by
  simp [getConn, setConn, getKey_setKey_self]

theorem getConn_setConn_ne (s : ServerState) (i j : Nat) (c : Conn) (h : i ≠ j) :
    getConn (setConn s i c) j = getConn s j := by
  simp [getConn, setConn, getKey_setKey_ne _ _ _ _ h]

theorem getConn_rooms_update (s : ServerState) (X : List (String × Room)) (c : Nat) :
    getConn { s with rooms := X } c = getConn s c := rfl

theorem rooms_setConn (s : ServerState) (i : Nat) (c : Conn) :
    (setConn s i c).rooms = s.rooms := rfl

/-! ### sendIfOpen / openWrites lemmas -/

theorem mem_sendIfOpen (s : ServerState) (host : Nat) (m : OutMsg)
    (p : Nat × OutMsg) (h : p ∈ sendIfOpen s host m) :
    p = (host, m) ∧ (getConn s host).isOpen = true := by
  by_cases ho : (getConn s host).isOpen
  · simp [sendIfOpen, ho] at h
    simp [h, ho]
  · simp [sendIfOpen, ho] at h

theorem sendIfOpen_of_open (s : ServerState) (host : Nat) (m : OutMsg)
    (h : (getConn s host).isOpen = true) :
    sendIfOpen s host m = [(host, m)] := by
  simp [sendIfOpen, h]

theorem mem_openWrites (s : ServerState) (excl : Option Nat) (ts : List Nat)
    (m : OutMsg) (p : Nat × OutMsg) (h : p ∈ openWrites s excl ts m) :
    p.2 = m ∧ p.1 ∈ ts ∧ (getConn s p.1).isOpen = true ∧ excl ≠ some p.1 := by
  simp only [openWrites] at h
  rcases List.mem_filterMap.mp h with ⟨c, hc, hsome⟩
  by_cases hcond : excl ≠ some c ∧ (getConn s c).isOpen = true
  · rw [if_pos hcond] at hsome
    cases hsome
    exact ⟨rfl, hc, hcond.2, hcond.1⟩
  · rw [if_neg hcond] at hsome
    cases hsome

theorem openWrites_none_all_open :
    ∀ (ts : List Nat) (s : ServerState) (m : OutMsg),
      (∀ c ∈ ts, (getConn s c).isOpen = true) →
      openWrites s none ts m = ts.map (fun c => (c, m))
  | [], s, m, _ => rfl
  | x :: rest, s, m, h => by
    have hx : (getConn s x).isOpen = true := h x (List.mem_cons_self _ _)
    have ih := openWrites_none_all_open rest s m (fun c hc => h c (List.mem_cons_of_mem _ hc))
    have hcond : ((none : Option Nat) ≠ some x ∧ (getConn s x).isOpen = true) := ⟨by simp, hx⟩
    simp only [openWrites, List.filterMap_cons, if_pos hcond]
    simp only [openWrites] at ih
    rw [ih, List.map_cons]

theorem openWrites_excl_all_open :
    ∀ (ts : List Nat) (s : ServerState) (w : Nat) (m : OutMsg),
      (∀ c ∈ ts, (getConn s c).isOpen = true) →
      openWrites s (some w) ts m = (ts.filter (fun c => c != w)).map (fun c => (c, m))
  | [], s, w, m, _ => rfl
  | x :: rest, s, w, m, h => by
    have hx : (getConn s x).isOpen = true := h x (List.mem_cons_self _ _)
    have ih := openWrites_excl_all_open rest s w m (fun c hc => h c (List.mem_cons_of_mem _ hc))
    by_cases hxw : x = w
    · subst hxw
      have hcond : ¬ ((some x : Option Nat) ≠ some x ∧ (getConn s x).isOpen = true) := by
        intro hc; exact hc.1 rfl
      simp only [openWrites, List.filterMap_cons, if_neg hcond]
      simp only [openWrites] at ih
      rw [ih, List.filter_cons]
      simp
    · have hcond : ((some w : Option Nat) ≠ some x ∧ (getConn s x).isOpen = true) :=
        ⟨by intro he; exact hxw (Option.some.inj he).symm, hx⟩
      simp only [openWrites, List.filterMap_cons, if_pos hcond]
      simp only [openWrites] at ih
      rw [ih, List.filter_cons]
      have : (x != w) = true := bne_iff_ne.mpr hxw
      simp [this]

/-! ### hostTeardown lemmas -/

theorem hostTeardown_rooms :
    ∀ (l : List Nat) (s : ServerState), (hostTeardown s l).1.rooms = s.rooms
  | [], s => rfl
  | c :: rest, s => by
    by_cases ho : (getConn s c).isOpen
    · simp only [hostTeardown, ho, if_true]
      rw [hostTeardown_rooms rest]
      rfl
    · simp only [hostTeardown, ho, if_false]
      exact hostTeardown_rooms rest s

theorem hostTeardown_conn_attrs :
    ∀ (l : List Nat) (s : ServerState) (c : Nat),
      (getConn (hostTeardown s l).1 c).roomCode = (getConn s c).roomCode ∧
      (getConn (hostTeardown s l).1 c).isHost = (getConn s c).isHost ∧
      (getConn (hostTeardown s l).1 c).playerId = (getConn s c).playerId ∧
      (getConn (hostTeardown s l).1 c).playerInfo = (getConn s c).playerInfo
  | [], s, c => ⟨rfl, rfl, rfl, rfl⟩
  | x :: rest, s, c => by
    by_cases ho : (getConn s x).isOpen
    · simp only [hostTeardown, ho, if_true]
      have ih := hostTeardown_conn_attrs rest
        (setConn s x { getConn s x with isOpen := false }) c
      by_cases hxc : x = c
      · subst hxc
        simpa [getConn_setConn_self] using ih
      · simpa [getConn_setConn_ne s x c _ hxc] using ih
    · simp only [hostTeardown, ho, if_false]
      exact hostTeardown_conn_attrs rest s c

theorem hostTeardown_open_mono :
    ∀ (l : List Nat) (s : ServerState) (c : Nat),
      (getConn (hostTeardown s l).1 c).isOpen = true → (getConn s c).isOpen = true
  | [], s, c, h => h
  | x :: rest, s, c, h => by
    by_cases ho : (getConn s x).isOpen
    · simp only [hostTeardown, ho, if_true] at h
      have h2 := hostTeardown_open_mono rest
        (setConn s x { getConn s x with isOpen := false }) c h
      by_cases hxc : x = c
      · subst hxc
        rw [getConn_setConn_self] at h2
        simp at h2
      · rwa [getConn_setConn_ne s x c _ hxc] at h2
    · simp only [hostTeardown, ho, if_false] at h
      exact hostTeardown_open_mono rest s c h

theorem hostTeardown_closes :
    ∀ (l : List Nat) (s : ServerState) (c : Nat), c ∈ l →
      (getConn (hostTeardown s l).1 c).isOpen = false
  | [], _, c, h => by simp at h
  | x :: rest, s, c, h => by
    by_cases ho : (getConn s x).isOpen
    · simp only [hostTeardown, ho, if_true]
      by_cases hcr : c ∈ rest
      · exact hostTeardown_closes rest _ c hcr
      · have hcx : c = x := by
          rcases List.mem_cons.mp h with h1 | h1
          · exact h1
          · exact absurd h1 hcr
        subst hcx
        by_contra hop
        have := hostTeardown_open_mono rest
          (setConn s c { getConn s c with isOpen := false }) c
          (Bool.not_eq_false _ |>.mp hop)
        rw [getConn_setConn_self] at this
        simp at this
    · simp only [hostTeardown, ho, if_false]
      rcases List.mem_cons.mp h with h1 | h1
      · subst h1
        by_contra hop
        have := hostTeardown_open_mono rest s c (Bool.not_eq_false _ |>.mp hop)
        rw [this] at ho
        exact ho rfl
      · exact hostTeardown_closes rest s c h1

theorem hostTeardown_sends :
    ∀ (l : List Nat) (s : ServerState) (c : Nat), c ∈ l →
      (getConn s c).isOpen = true →
      (c, OutMsg.hostDisconnected) ∈ (hostTeardown s l).2
  | [], _, c, h, _ => by simp at h
  | x :: rest, s, c, h, hop => by
    by_cases ho : (getConn s x).isOpen
    · simp only [hostTeardown, ho, if_true]
      by_cases hcx : c = x
      · subst hcx; simp
      · rcases List.mem_cons.mp h with h1 | h1
        · exact absurd h1 hcx
        · refine List.mem_cons_of_mem _ ?_
          refine hostTeardown_sends rest _ c h1 ?_
          rwa [getConn_setConn_ne s x c _ (fun he => hcx he.symm)]
    · simp only [hostTeardown, ho, if_false]
      rcases List.mem_cons.mp h with h1 | h1
      · subst h1; rw [hop] at ho; exact absurd rfl ho
      · exact hostTeardown_sends rest s c h1 hop

theorem hostTeardown_writes_open :
    ∀ (l : List Nat) (s : ServerState) (p : Nat × OutMsg),
      p ∈ (hostTeardown s l).2 → (getConn s p.1).isOpen = true
  | [], _, p, h => by simp [hostTeardown] at h
  | x :: rest, s, p, h => by
    by_cases ho : (getConn s x).isOpen
    · simp only [hostTeardown, ho, if_true, List.mem_cons] at h
      rcases h with h | h
      · simp [h, ho]
      · have := hostTeardown_writes_open rest
          (setConn s x { getConn s x with isOpen := false }) p h
        by_cases hxp : x = p.1
        · subst hxp
          rw [getConn_setConn_self] at this
          simp at this
        · rwa [getConn_setConn_ne s x p.1 _ hxp] at this
    · simp only [hostTeardown, ho, if_false] at h
      exact hostTeardown_writes_open rest s p h

/-! ### Spec-modelled maze variant

The spec describes `maze_data` handling (§4.3: host-only broadcast; cached
once on the Room and replayed to any later joiner, the §4.2 analog). That
handling lives in the maze variant of the server, a repository file not
present here: the provided `server.js` switch has no `maze_data` case at
all. The two definitions below are therefore modelled from the spec, not
translated from source. -/

/-- Modelled from the spec: the maze variant's Room, reduced to the fields
`maze_data` handling touches (member list and the cached maze payload). -/
structure MazeRoom where
  host : Nat
  clients : List Nat
  mazeData : Option Val
  deriving DecidableEq, Repr

/-- Modelled from the spec: the maze variant's inbound `maze_data` handler —
sender must be host or the message is silently dropped; from the host the
payload is cached on the Room and broadcast to the guests. -/
def mazeBroadcast (r : MazeRoom) (senderIsHost : Bool) (d : Val) :
    MazeRoom × List (Nat × OutMsg) :=
  if senderIsHost then
    ({ r with mazeData := some d }, r.clients.map fun c => (c, OutMsg.mazeData d))
  else (r, [])

/-- Modelled from the spec: the maze variant's late-join replay — a joiner is
appended to the member list and receives the cached `maze_data` (if any);
no other connection receives a replay. -/
def mazeJoinReplay (r : MazeRoom) (ws : Nat) : MazeRoom × List (Nat × OutMsg) :=
  ({ r with clients := r.clients ++ [ws] },
   match r.mazeData with
   | some d => [(ws, OutMsg.mazeData d)]
   | none => [])

/-! ### Concrete fixture states used by witnesses and counterexamples -/

/-- The host's initial `playerData` entry (zero transform, defaults). -/
def hostRec : PlayerRecord :=
  { info := "h", position := Val.vVec 0 0 0,
    animState := Val.vInt 0, sprinting := Val.vBool false }

/-- A guest `playerData` entry with the given nick. -/
def guestRec (n : String) : PlayerRecord :=
  { info := n, position := Val.vVec 0 0 0,
    animState := Val.vInt 0, sprinting := Val.vBool false }

/-- A room `"ABCDEF"` with host connection `0`, one guest connection `1`,
and cached environment / puzzle / enemy state. -/
def wRoom : Room :=
  { host := 0
    clients := [1]
    hostInfo := "h"
    playerData := [("host", hostRec), ("player_1", guestRec "g")]
    environmentState := [("time", Val.vStr "night")]
    puzzleStates := [("p1", Val.vInt 1), ("p2", Val.vInt 2)]
    enemyStates := [("e1", { enemy_id := "e1", payload := Val.vInt 7 })] }

/-- Fixture: registry holding `wRoom`; connections 0 (host, open),
1 (guest, open), 2 (unbound, open). -/
def wState : ServerState :=
  { rooms := [("ABCDEF", wRoom)]
    conns :=
      [ (0, { roomCode := some "ABCDEF", isHost := true, playerId := "host",
              playerInfo := "h", isOpen := true })
      , (1, { roomCode := some "ABCDEF", isHost := false, playerId := "player_1",
              playerInfo := "g", isOpen := true })
      , (2, { roomCode := none, isHost := false, playerId := "",
              playerInfo := "", isOpen := true }) ] }

/-- A full room: five guests `1..5` under host `0`. -/
def wRoomFull : Room :=
  { host := 0
    clients := [1, 2, 3, 4, 5]
    hostInfo := "h"
    playerData :=
      [("host", hostRec), ("player_1", guestRec "g1"), ("player_2", guestRec "g2"),
       ("player_3", guestRec "g3"), ("player_4", guestRec "g4"), ("player_5", guestRec "g5")]
    environmentState := []
    puzzleStates := []
    enemyStates := [] }

/-- Fixture: a full room (five guests `1..5`), plus unbound connection `7`. -/
def wStateFull : ServerState :=
  { rooms := [("ABCDEF", wRoomFull)]
    conns :=
      [ (0, { roomCode := some "ABCDEF", isHost := true, playerId := "host",
              playerInfo := "h", isOpen := true })
      , (1, { roomCode := some "ABCDEF", isHost := false, playerId := "player_1",
              playerInfo := "g1", isOpen := true })
      , (2, { roomCode := some "ABCDEF", isHost := false, playerId := "player_2",
              playerInfo := "g2", isOpen := true })
      , (3, { roomCode := some "ABCDEF", isHost := false, playerId := "player_3",
              playerInfo := "g3", isOpen := true })
      , (4, { roomCode := some "ABCDEF", isHost := false, playerId := "player_4",
              playerInfo := "g4", isOpen := true })
      , (5, { roomCode := some "ABCDEF", isHost := false, playerId := "player_5",
              playerInfo := "g5", isOpen := true })
      , (7, { roomCode := none, isHost := false, playerId := "",
              playerInfo := "", isOpen := true }) ] }

/-! ### Claim theorems -/

/-- C1: a `join_room` whose (uppercased) code has no room in the registry
gets exactly the single reply `{join_failed, error: "Room not found"}`, and a
`join_room` into a room that already has 5 guests gets exactly the single
reply `{join_failed, error: "Room full (max 6 players)"}`; in both failure
cases the state (registry, rooms, connection attributes) is completely
unchanged, so no 6th guest is ever admitted and the connection stays open. -/
theorem joinRoom_failure_behavior (s : ServerState) (ws : Nat) (mrc pinfo : String) :
    (getKey s.rooms (jsToUpper mrc) = none →
      joinRoom s ws mrc pinfo = (s, [(ws, OutMsg.joinFailed "Room not found")])) ∧
    (∀ room : Room, getKey s.rooms (jsToUpper mrc) = some room →
      room.clients.length ≥ 5 →
      joinRoom s ws mrc pinfo = (s, [(ws, OutMsg.joinFailed "Room full (max 6 players)")])) := by
  constructor
  · intro h
    simp only [joinRoom, h]
  · intro room hr hf
    simp only [joinRoom, hr, if_pos hf]

/-- Witness for C1 at concrete inputs: an unknown code (`"zzzzzz"`, which no
room carries once uppercased), and a join into the 5-guest room of
`wStateFull`. -/
theorem joinRoom_failure_behavior_witness :
    joinRoom wState 2 "zzzzzz" "n" = (wState, [(2, OutMsg.joinFailed "Room not found")]) ∧
    joinRoom wStateFull 7 "abcdef" "n" =
      (wStateFull, [(7, OutMsg.joinFailed "Room full (max 6 players)")]) :=
  ⟨(joinRoom_failure_behavior wState 2 "zzzzzz" "n").1 (by decide),
   (joinRoom_failure_behavior wStateFull 7 "abcdef" "n").2 wRoomFull
     (by decide) (by decide)⟩

/-- C5: a guest (non-host) connection bound to a room that sends
`environment_update`, `enemy_state` or `enemy_capture` is silently dropped:
the state is unchanged (no room mutation), no message is sent to anyone,
and no reply goes back to the guest. -/
theorem guest_host_only_types_dropped (s : ServerState) (ws : Nat) (code : String)
    (room : Room)
    (hrc : (getConn s ws).roomCode = some code)
    (hr : getKey s.rooms code = some room)
    (hg : (getConn s ws).isHost = false) :
    (∀ data, broadcastEnvironment s ws data = (s, [])) ∧
    (∀ d, broadcastEnemyState s ws d = (s, [])) ∧
    (∀ a b, broadcastEnemyCapture s ws a b = (s, [])) := by
  refine ⟨fun data => ?_, fun d => ?_, fun a b => ?_⟩
  · simp only [broadcastEnvironment, hrc, hr, hg]
    rfl
  · simp only [broadcastEnemyState, hrc, hr, hg]
    rfl
  · simp only [broadcastEnemyCapture, hrc, hr, hg]
    rfl

/-- Witness for C5: the bound guest connection `1` of `wState`. -/
theorem guest_host_only_types_dropped_witness :
    broadcastEnvironment wState 1 [("time", Val.vStr "day")] = (wState, []) ∧
    broadcastEnemyState wState 1 { enemy_id := "e9", payload := Val.vInt 1 } = (wState, []) ∧
    broadcastEnemyCapture wState 1 (Val.vStr "e1") (Val.vStr "player_1") = (wState, []) :=
  ⟨(guest_host_only_types_dropped wState 1 "ABCDEF" wRoom (by decide) (by decide)
      (by decide)).1 _,
   (guest_host_only_types_dropped wState 1 "ABCDEF" wRoom (by decide) (by decide)
      (by decide)).2.1 _,
   (guest_host_only_types_dropped wState 1 "ABCDEF" wRoom (by decide) (by decide)
      (by decide)).2.2 _ _⟩

/-- C10: a connection not bound to a live room (its `roomCode` was never
set, or the room it names is gone from the registry) gets a total no-op for
every relay-type message: state unchanged, nothing sent to anyone. -/
theorem unbound_relay_noop (s : ServerState) (ws : Nat)
    (h : (getConn s ws).roomCode = none ∨
         ∃ code, (getConn s ws).roomCode = some code ∧ getKey s.rooms code = none) :
    (∀ p, broadcastPosition s ws p = (s, [])) ∧
    (∀ a sp, broadcastAnimation s ws a sp = (s, [])) ∧
    (∀ m, broadcastChat s ws m = (s, [])) ∧
    (∀ d, broadcastEnvironment s ws d = (s, [])) ∧
    (∀ pid st, broadcastPuzzle s ws pid st = (s, [])) ∧
    (∀ o a d, broadcastInteraction s ws o a d = (s, [])) ∧
    (∀ d, broadcastEnemyState s ws d = (s, [])) ∧
    (∀ a b, broadcastEnemyCapture s ws a b = (s, [])) := by
  rcases h with h | ⟨code, hrc, hr⟩
  · refine ⟨fun p => ?_, fun a sp => ?_, fun m => ?_, fun d => ?_, fun pid st => ?_,
      fun o a d => ?_, fun d => ?_, fun a b => ?_⟩ <;>
      simp only [broadcastPosition, broadcastAnimation, broadcastChat,
        broadcastEnvironment, broadcastPuzzle, broadcastInteraction,
        broadcastEnemyState, broadcastEnemyCapture, h]
  · refine ⟨fun p => ?_, fun a sp => ?_, fun m => ?_, fun d => ?_, fun pid st => ?_,
      fun o a d => ?_, fun d => ?_, fun a b => ?_⟩ <;>
      simp only [broadcastPosition, broadcastAnimation, broadcastChat,
        broadcastEnvironment, broadcastPuzzle, broadcastInteraction,
        broadcastEnemyState, broadcastEnemyCapture, hrc, hr]

/-- Witness for C10: the never-bound connection `2` of `wState`, and guest
`1` after its room was torn down (room deleted, `roomCode` still set). -/
theorem unbound_relay_noop_witness :
    broadcastPosition wState 2 (Val.vVec 1 2 3) = (wState, []) ∧
    broadcastChat { wState with rooms := [] } 1 (Val.vStr "hi") =
      ({ wState with rooms := [] }, []) :=
  ⟨(unbound_relay_noop wState 2 (Or.inl (by decide))).1 _,
   (unbound_relay_noop { wState with rooms := [] } 1
      (Or.inr ⟨"ABCDEF", by decide, by decide⟩)).2.2.1 _⟩

/-- C9 (spec-modelled): an inbound `maze_data` message from the host is
accepted, its payload is cached on the Room, broadcast to the guests, and a
connection that joins later receives exactly the cached payload in its
replay. -/
theorem maze_data_cached_and_replayed (r : MazeRoom) (d : Val) (ws : Nat) :
    ((mazeBroadcast r true d).1.mazeData = some d) ∧
    ((mazeBroadcast r true d).2 = r.clients.map fun c => (c, OutMsg.mazeData d)) ∧
    ((mazeJoinReplay (mazeBroadcast r true d).1 ws).2 = [(ws, OutMsg.mazeData d)]) := by
  refine ⟨rfl, by simp [mazeBroadcast], ?_⟩
  simp [mazeBroadcast, mazeJoinReplay]

/-- C4: on a successful join, the joiner's writes are, in order: the
`join_success` reply, then — to the joiner alone — the cached
`environmentState` (exactly when non-empty), one `puzzle_update` per
`puzzleStates` entry and one `enemy_state` per `enemyStates` entry, and only
then the live `player_joined` broadcast, whose every message is
`player_joined` (so no other connection ever receives the replayed state). -/
theorem join_replay_to_joiner_only (s : ServerState) (ws : Nat) (mrc pinfo : String)
    (room : Room)
    (hr : getKey s.rooms (jsToUpper mrc) = some room)
    (hf : ¬ room.clients.length ≥ 5) :
    (joinRoom s ws mrc pinfo).2 =
      (ws, OutMsg.joinSuccess (jsToUpper mrc)
            ("player_" ++ toString (room.clients.length + 1))
            (setKey room.playerData ("player_" ++ toString (room.clients.length + 1))
              { info := pinfo, position := Val.vVec 0 0 0,
                animState := Val.vInt 0, sprinting := Val.vBool false }))
        :: ((if room.environmentState.length > 0 then
              [(ws, OutMsg.environmentUpdate room.environmentState)] else [])
            ++ room.puzzleStates.map (fun p => (ws, OutMsg.puzzleUpdate p.1 p.2))
            ++ room.enemyStates.map (fun e => (ws, OutMsg.enemyState e.2))
            ++ (room.host,
                OutMsg.playerJoined ("player_" ++ toString (room.clients.length + 1)) pinfo)
              :: openWrites (joinRoom s ws mrc pinfo).1 (some ws) (room.clients ++ [ws])
                   (OutMsg.playerJoined ("player_" ++ toString (room.clients.length + 1)) pinfo)) ∧
    (∀ q ∈ (room.host,
              OutMsg.playerJoined ("player_" ++ toString (room.clients.length + 1)) pinfo)
            :: openWrites (joinRoom s ws mrc pinfo).1 (some ws) (room.clients ++ [ws])
                 (OutMsg.playerJoined ("player_" ++ toString (room.clients.length + 1)) pinfo),
      q.2 = OutMsg.playerJoined ("player_" ++ toString (room.clients.length + 1)) pinfo) := by
  constructor
  · simp only [joinRoom, hr, if_neg hf]
  · intro q hq
    rcases List.mem_cons.mp hq with h1 | h1
    · rw [h1]
    · exact (mem_openWrites _ _ _ _ _ h1).1

/-- Witness for C4: connection 2 joins `wRoom` (cached environment, two
puzzle entries, one enemy entry) and gets exactly the replay between its
`join_success` and the `player_joined` fanout. -/
theorem join_replay_to_joiner_only_witness :
    (joinRoom wState 2 "ABCDEF" "n").2 =
      (2, OutMsg.joinSuccess "ABCDEF" "player_2"
            (setKey wRoom.playerData "player_2"
              { info := "n", position := Val.vVec 0 0 0,
                animState := Val.vInt 0, sprinting := Val.vBool false }))
        :: ((if wRoom.environmentState.length > 0 then
              [(2, OutMsg.environmentUpdate wRoom.environmentState)] else [])
            ++ wRoom.puzzleStates.map (fun p => (2, OutMsg.puzzleUpdate p.1 p.2))
            ++ wRoom.enemyStates.map (fun e => (2, OutMsg.enemyState e.2))
            ++ (wRoom.host, OutMsg.playerJoined "player_2" "n")
              :: openWrites (joinRoom wState 2 "ABCDEF" "n").1 (some 2) (wRoom.clients ++ [2])
                   (OutMsg.playerJoined "player_2" "n")) :=
  (join_replay_to_joiner_only wState 2 "ABCDEF" "n" wRoom (by decide) (by decide)).1

/-- The room after `playerData[pid].position` is overwritten with `pos`
(where `rec` is the previous entry). -/
def withPosition (room : Room) (pid : String) (rec : PlayerRecord) (pos : Val) : Room :=
  { room with playerData := setKey room.playerData pid { rec with position := pos } }

/-- C6: a `player_position` message from a member overwrites the sender's
`playerData` position and is relayed as `{player_position, playerId, position}`
to all guests when the sender is the host, and to the host plus all other
guests when the sender is a guest — never back to the sender itself. -/
theorem player_position_update_and_relay (s : ServerState) (ws : Nat) (pos : Val)
    (code : String) (room : Room) (rec : PlayerRecord)
    (hrc : (getConn s ws).roomCode = some code)
    (hr : getKey s.rooms code = some room)
    (hpd : getKey room.playerData (getConn s ws).playerId = some rec)
    (hopenH : (getConn s room.host).isOpen = true)
    (hopenC : ∀ c ∈ room.clients, (getConn s c).isOpen = true)
    (hsh : (getConn s ws).isHost = true → ws ∉ room.clients)
    (hsg : (getConn s ws).isHost = false → room.host ≠ ws) :
    getKey (broadcastPosition s ws pos).1.rooms code =
      some (withPosition room (getConn s ws).playerId rec pos) ∧
    ((getConn s ws).isHost = true →
      (broadcastPosition s ws pos).2 =
        room.clients.map fun c => (c, OutMsg.playerPosition (getConn s ws).playerId pos)) ∧
    ((getConn s ws).isHost = false →
      (broadcastPosition s ws pos).2 =
        (room.host, OutMsg.playerPosition (getConn s ws).playerId pos)
          :: (room.clients.filter (fun c => c != ws)).map
               (fun c => (c, OutMsg.playerPosition (getConn s ws).playerId pos))) ∧
    (∀ q ∈ (broadcastPosition s ws pos).2, q.1 ≠ ws) := by
  by_cases hh : (getConn s ws).isHost = true
  · simp only [broadcastPosition, hrc, hr, hpd]
    rw [if_pos hh]
    refine ⟨?_, ?_, ?_, ?_⟩
    · exact getKey_setKey_self _ _ _
    · intro _
      exact openWrites_none_all_open room.clients _ _ hopenC
    · intro hc
      rw [hc] at hh
      exact Bool.noConfusion hh
    · intro q hq he
      exact hsh hh (he ▸ (mem_openWrites _ _ _ _ _ hq).2.1)
  · have hh' : (getConn s ws).isHost = false := Bool.eq_false_iff.mpr hh
    simp only [broadcastPosition, hrc, hr, hpd]
    rw [if_neg hh]
    refine ⟨?_, ?_, ?_, ?_⟩
    · exact getKey_setKey_self _ _ _
    · intro hc
      exact absurd hc hh
    · intro _
      rw [sendIfOpen_of_open _ _ _ hopenH,
        openWrites_excl_all_open room.clients _ ws _ hopenC]
      rfl
    · intro q hq
      rcases List.mem_append.mp hq with h1 | h1
      · have h2 := mem_sendIfOpen _ _ _ _ h1
        rw [h2.1]
        exact hsg hh'
      · have h2 := mem_openWrites _ _ _ _ _ h1
        intro he
        exact h2.2.2.2 (by rw [he])

/-- Witness for C6: guest 1 of `wState` sends `player_position {1,2,3}`. -/
theorem player_position_update_and_relay_witness :
    getKey (broadcastPosition wState 1 (Val.vVec 1 2 3)).1.rooms "ABCDEF" =
      some (withPosition wRoom (getConn wState 1).playerId (guestRec "g") (Val.vVec 1 2 3)) ∧
    ((getConn wState 1).isHost = false →
      (broadcastPosition wState 1 (Val.vVec 1 2 3)).2 =
        (wRoom.host, OutMsg.playerPosition (getConn wState 1).playerId (Val.vVec 1 2 3))
          :: (wRoom.clients.filter (fun c => c != 1)).map
               (fun c => (c, OutMsg.playerPosition (getConn wState 1).playerId (Val.vVec 1 2 3)))) :=
  ⟨(player_position_update_and_relay wState 1 (Val.vVec 1 2 3) "ABCDEF" wRoom (guestRec "g")
      (by decide) (by decide) (by decide) (by decide) (by decide)
      (fun h => by rw [show (getConn wState 1).isHost = false from by decide] at h; cases h)
      (fun _ => by decide)).1,
   (player_position_update_and_relay wState 1 (Val.vVec 1 2 3) "ABCDEF" wRoom (guestRec "g")
      (by decide) (by decide) (by decide) (by decide) (by decide)
      (fun h => by rw [show (getConn wState 1).isHost = false from by decide] at h; cases h)
      (fun _ => by decide)).2.2.1⟩

/-- Fixture: like `wState` but the host connection 0 is closed. -/
def wStateHostClosed : ServerState :=
  { rooms := [("ABCDEF", wRoom)]
    conns :=
      [ (0, { roomCode := some "ABCDEF", isHost := true, playerId := "host",
              playerInfo := "h", isOpen := false })
      , (1, { roomCode := some "ABCDEF", isHost := false, playerId := "player_1",
              playerInfo := "g", isOpen := true })
      , (2, { roomCode := none, isHost := false, playerId := "",
              playerInfo := "", isOpen := true }) ] }

/-- A member of one fanout write list of the star topology
(`host (guarded) ++ other clients (guarded)`) has an open transport. -/
theorem mem_star_fanout_open (s : ServerState) (ws h : Nat) (ts : List Nat)
    (m : OutMsg) (q : Nat × OutMsg)
    (hq : q ∈ sendIfOpen s h m ++ openWrites s (some ws) ts m) :
    (getConn s q.1).isOpen = true := by
  rcases List.mem_append.mp hq with h1 | h1
  · rcases mem_sendIfOpen _ _ _ _ h1 with ⟨he, ho⟩
    rw [he]
    exact ho
  · exact (mem_openWrites _ _ _ _ _ h1).2.2.1

/-- C7 counterexample: the `player_joined` fanout inside `joinRoom` writes to
the host without any transport-open check — with the host's transport closed
(`wStateHostClosed`), a join still performs a write to connection 0. This
refutes the claim that every outbound fanout write is guarded by an explicit
"recipient still open" check. -/
theorem join_fanout_writes_to_closed_host :
    (getConn wStateHostClosed 0).isOpen = false ∧
    (0, OutMsg.playerJoined "player_2" "n") ∈ (joinRoom wStateHostClosed 2 "ABCDEF" "n").2 ∧
    (getConn (joinRoom wStateHostClosed 2 "ABCDEF" "n").1 0).isOpen = false := by
  decide

/-- C7 amended: per-recipient open-guarding holds for every fanout write
EXCEPT the `player_joined` write to the host inside `joinRoom` and the chat
echo to the sender, which the source performs unguarded. Precisely: in every
relay broadcast and in disconnect handling, each write whose recipient is
not the sender targets an open connection (host-only broadcasts guard every
recipient), and in the join fanout each write whose recipient is neither the
joiner nor the room's host targets an open connection. Writes are emitted
per-recipient, so a skipped recipient never aborts the rest of the loop. -/
theorem fanout_writes_guarded (s : ServerState) (ws : Nat) :
    (∀ pos q, q ∈ (broadcastPosition s ws pos).2 → q.1 ≠ ws → (getConn s q.1).isOpen = true) ∧
    (∀ a sp q, q ∈ (broadcastAnimation s ws a sp).2 → q.1 ≠ ws → (getConn s q.1).isOpen = true) ∧
    (∀ m q, q ∈ (broadcastChat s ws m).2 → q.1 ≠ ws → (getConn s q.1).isOpen = true) ∧
    (∀ d q, q ∈ (broadcastEnvironment s ws d).2 → (getConn s q.1).isOpen = true) ∧
    (∀ pid st q, q ∈ (broadcastPuzzle s ws pid st).2 → q.1 ≠ ws → (getConn s q.1).isOpen = true) ∧
    (∀ o a d q, q ∈ (broadcastInteraction s ws o a d).2 → q.1 ≠ ws → (getConn s q.1).isOpen = true) ∧
    (∀ d q, q ∈ (broadcastEnemyState s ws d).2 → (getConn s q.1).isOpen = true) ∧
    (∀ a b q, q ∈ (broadcastEnemyCapture s ws a b).2 → (getConn s q.1).isOpen = true) ∧
    (∀ q, q ∈ (handleDisconnect s ws).2 → (getConn s q.1).isOpen = true) ∧
    (∀ mrc pinfo room q, getKey s.rooms (jsToUpper mrc) = some room →
      q ∈ (joinRoom s ws mrc pinfo).2 → q.1 ≠ ws → q.1 ≠ room.host →
      (getConn s q.1).isOpen = true) := by
  refine ⟨?_, ?_, ?_, ?_, ?_, ?_, ?_, ?_, ?_, ?_⟩
  · intro pos q hq hne
    simp only [broadcastPosition] at hq
    split at hq
    · exact absurd hq (List.not_mem_nil q)
    · split at hq
      · exact absurd hq (List.not_mem_nil q)
      · split at hq <;> dsimp only at hq
        · exact (mem_openWrites _ _ _ _ _ hq).2.2.1
        · exact mem_star_fanout_open _ _ _ _ _ _ hq
  · intro a sp q hq hne
    simp only [broadcastAnimation] at hq
    split at hq
    · exact absurd hq (List.not_mem_nil q)
    · split at hq
      · exact absurd hq (List.not_mem_nil q)
      · split at hq <;> dsimp only at hq
        · exact (mem_openWrites _ _ _ _ _ hq).2.2.1
        · exact mem_star_fanout_open _ _ _ _ _ _ hq
  · intro m q hq hne
    simp only [broadcastChat] at hq
    split at hq
    · exact absurd hq (List.not_mem_nil q)
    · split at hq
      · exact absurd hq (List.not_mem_nil q)
      · split at hq <;> dsimp only at hq <;>
          rcases List.mem_cons.mp hq with h1 | h1
        · exact absurd (congrArg Prod.fst h1) hne
        · exact (mem_openWrites _ _ _ _ _ h1).2.2.1
        · exact absurd (congrArg Prod.fst h1) hne
        · exact mem_star_fanout_open _ _ _ _ _ _ h1
  · intro d q hq
    simp only [broadcastEnvironment] at hq
    split at hq
    · exact absurd hq (List.not_mem_nil q)
    · split at hq
      · exact absurd hq (List.not_mem_nil q)
      · split at hq <;> dsimp only at hq
        · exact (mem_openWrites _ _ _ _ _ hq).2.2.1
        · exact absurd hq (List.not_mem_nil q)
  · intro pid st q hq hne
    simp only [broadcastPuzzle] at hq
    split at hq
    · exact absurd hq (List.not_mem_nil q)
    · split at hq
      · exact absurd hq (List.not_mem_nil q)
      · split at hq <;> dsimp only at hq
        · exact (mem_openWrites _ _ _ _ _ hq).2.2.1
        · exact mem_star_fanout_open _ _ _ _ _ _ hq
  · intro o a d q hq hne
    simp only [broadcastInteraction] at hq
    split at hq
    · exact absurd hq (List.not_mem_nil q)
    · split at hq
      · exact absurd hq (List.not_mem_nil q)
      · split at hq <;> dsimp only at hq
        · exact (mem_openWrites _ _ _ _ _ hq).2.2.1
        · exact mem_star_fanout_open _ _ _ _ _ _ hq
  · intro d q hq
    simp only [broadcastEnemyState] at hq
    split at hq
    · exact absurd hq (List.not_mem_nil q)
    · split at hq
      · exact absurd hq (List.not_mem_nil q)
      · split at hq <;> dsimp only at hq
        · exact (mem_openWrites _ _ _ _ _ hq).2.2.1
        · exact absurd hq (List.not_mem_nil q)
  · intro a b q hq
    simp only [broadcastEnemyCapture] at hq
    split at hq
    · exact absurd hq (List.not_mem_nil q)
    · split at hq
      · exact absurd hq (List.not_mem_nil q)
      · split at hq <;> dsimp only at hq
        · exact (mem_openWrites _ _ _ _ _ hq).2.2.1
        · exact absurd hq (List.not_mem_nil q)
  · intro q hq
    simp only [handleDisconnect] at hq
    split at hq
    · exact absurd hq (List.not_mem_nil q)
    · split at hq
      · exact absurd hq (List.not_mem_nil q)
      · split at hq
        · dsimp only at hq
          exact hostTeardown_writes_open _ _ _ hq
        · split at hq
          · dsimp only at hq
            rcases List.mem_append.mp hq with h1 | h1
            · rcases mem_sendIfOpen _ _ _ _ h1 with ⟨he, ho⟩
              rw [he]
              exact ho
            · exact (mem_openWrites _ _ _ _ _ h1).2.2.1
          · exact absurd hq (List.not_mem_nil q)
  · intro mrc pinfo room q hr hq hne hnh
    simp only [joinRoom, hr] at hq
    by_cases hlen : room.clients.length ≥ 5
    · rw [if_pos hlen] at hq
      dsimp only at hq
      rcases List.mem_cons.mp hq with h1 | h1
      · exact absurd (congrArg Prod.fst h1) hne
      · exact absurd h1 (List.not_mem_nil q)
    · rw [if_neg hlen] at hq
      dsimp only at hq
      rcases List.mem_cons.mp hq with h1 | h1
      · exact absurd (congrArg Prod.fst h1) hne
      · rcases List.mem_append.mp h1 with h2 | h2
        · rcases List.mem_append.mp h2 with h3 | h3
          · rcases List.mem_append.mp h3 with h4 | h4
            · split at h4
              · exact absurd (congrArg Prod.fst (List.mem_singleton.mp h4)) hne
              · exact absurd h4 (List.not_mem_nil q)
            · rcases List.mem_map.mp h4 with ⟨p, _, hp⟩
              exact absurd (congrArg Prod.fst hp).symm hne
          · rcases List.mem_map.mp h3 with ⟨p, _, hp⟩
            exact absurd (congrArg Prod.fst hp).symm hne
        · rcases List.mem_cons.mp h2 with h5 | h5
          · exact absurd (congrArg Prod.fst h5) hnh
          · have h6 := (mem_openWrites _ _ _ _ _ h5).2.2.1
            rwa [getConn_rooms_update, getConn_setConn_ne s ws q.1 _
              (fun he => hne (he ▸ rfl))] at h6

/-- Witness for C7: in `wState`, the host (connection 0) broadcasting a
position writes only to the open guest connection 1. -/
theorem fanout_writes_guarded_witness :
    (getConn wState 1).isOpen = true :=
  (fanout_writes_guarded wState 0).1 (Val.vVec 1 2 3)
    (1, OutMsg.playerPosition "host" (Val.vVec 1 2 3)) (by decide) (by decide)

/-- C3: when the host of a room disconnects (transport close, `leave_room`
or liveness failure — all of which run `handleDisconnect`), every guest of
the room (all open) receives a `host_disconnected` message, every guest
connection ends up closed, and the room's code is gone from the registry. -/
theorem host_disconnect_teardown (s : ServerState) (ws : Nat) (code : String)
    (room : Room)
    (hrc : (getConn s ws).roomCode = some code)
    (hh : (getConn s ws).isHost = true)
    (hr : getKey s.rooms code = some room)
    (hnd : (keysOf s.rooms).Nodup)
    (hopen : ∀ c ∈ room.clients, (getConn s c).isOpen = true) :
    getKey (handleDisconnect s ws).1.rooms code = none ∧
    (∀ c ∈ room.clients, (c, OutMsg.hostDisconnected) ∈ (handleDisconnect s ws).2) ∧
    (∀ c ∈ room.clients, (getConn (handleDisconnect s ws).1 c).isOpen = false) := by
  simp only [handleDisconnect, hrc, hr]
  rw [if_pos hh]
  dsimp only
  refine ⟨?_, ?_, ?_⟩
  · rw [hostTeardown_rooms]
    exact getKey_delKey_self _ _ hnd
  · intro c hc
    exact hostTeardown_sends _ _ _ hc (hopen c hc)
  · intro c hc
    exact hostTeardown_closes _ _ _ hc

/-- Witness for C3: host 0 of `wState` disconnects; guest 1 is notified and
closed, and `"ABCDEF"` is gone. -/
theorem host_disconnect_teardown_witness :
    getKey (handleDisconnect wState 0).1.rooms "ABCDEF" = none ∧
    (1, OutMsg.hostDisconnected) ∈ (handleDisconnect wState 0).2 ∧
    (getConn (handleDisconnect wState 0).1 1).isOpen = false :=
  ⟨(host_disconnect_teardown wState 0 "ABCDEF" wRoom (by decide) (by decide)
      (by decide) (by decide) (by decide)).1,
   (host_disconnect_teardown wState 0 "ABCDEF" wRoom (by decide) (by decide)
      (by decide) (by decide) (by decide)).2.1 1 (by decide),
   (host_disconnect_teardown wState 0 "ABCDEF" wRoom (by decide) (by decide)
      (by decide) (by decide) (by decide)).2.2 1 (by decide)⟩

/-- Fixture: empty room `"ABCDEF"` under host 0; connection 1 unbound. -/
def wStateEmptyRoom : ServerState :=
  { rooms := [("ABCDEF",
      { host := 0
        clients := []
        hostInfo := "h"
        playerData := [("host", hostRec)]
        environmentState := []
        puzzleStates := []
        enemyStates := [] })]
    conns :=
      [ (0, { roomCode := some "ABCDEF", isHost := true, playerId := "host",
              playerInfo := "h", isOpen := true })
      , (1, { roomCode := none, isHost := false, playerId := "",
              playerInfo := "", isOpen := true }) ] }

/-- C8 counterexample: `joinRoom` never checks whether the sender is already
a member, so a connection that sends `join_room` twice for the same room
occurs twice in `clients`; after one `leave_room`, a second
`leave_room`/disconnect still mutates the room and sends another
`player_left` — so disconnect handling is not idempotent for every
connection reachable through the message interface. -/
theorem second_disconnect_observable :
    (handleDisconnect
        (handleDisconnect
          (joinRoom (joinRoom wStateEmptyRoom 1 "ABCDEF" "n").1 1 "ABCDEF" "n").1 1).1 1).2 ≠ [] ∧
    (handleDisconnect
        (handleDisconnect
          (joinRoom (joinRoom wStateEmptyRoom 1 "ABCDEF" "n").1 1 "ABCDEF" "n").1 1).1 1).1 ≠
      (handleDisconnect
        (joinRoom (joinRoom wStateEmptyRoom 1 "ABCDEF" "n").1 1 "ABCDEF" "n").1 1).1 := by
  decide

/-- C8 amended: disconnect handling is idempotent for every connection that
occurs at most once in its room's guest list — i.e. every connection that
did not send `join_room` twice for the same room (the JS `Map` registry keys
are unique, hence the `Nodup` side condition): a second
`leave_room`/close/liveness teardown right after a first one changes no
state and sends nothing, and disconnect on a connection that never created
or joined a room is a no-op. -/
theorem disconnect_idempotent (s : ServerState) (ws : Nat)
    (hnd : (keysOf s.rooms).Nodup)
    (hcount : ∀ code room, (getConn s ws).roomCode = some code →
      getKey s.rooms code = some room → room.clients.count ws ≤ 1) :
    ((getConn s ws).roomCode = none → handleDisconnect s ws = (s, [])) ∧
    handleDisconnect (handleDisconnect s ws).1 ws = ((handleDisconnect s ws).1, []) := by
  constructor
  · intro h
    simp only [handleDisconnect, h]
  · cases hrc : (getConn s ws).roomCode with
    | none =>
      simp only [handleDisconnect, hrc]
    | some code =>
      cases hgr : getKey s.rooms code with
      | none =>
        simp only [handleDisconnect, hrc, hgr]
      | some room =>
        by_cases hh : (getConn s ws).isHost = true
        · simp only [handleDisconnect, hrc, hgr]
          rw [if_pos hh]
          dsimp only
          have hattr := (hostTeardown_conn_attrs room.clients s ws).1
          have hrc2 : (getConn (hostTeardown s room.clients).1 ws).roomCode = some code := by
            rw [hattr]; exact hrc
          have hno : getKey (delKey (hostTeardown s room.clients).1.rooms code) code = none := by
            rw [hostTeardown_rooms]
            exact getKey_delKey_self _ _ hnd
          simp only [handleDisconnect, getConn_rooms_update, hrc2, hno]
        · by_cases hmem : ws ∈ room.clients
          · simp only [handleDisconnect, hrc, hgr]
            rw [if_neg hh, if_pos hmem]
            dsimp only
            have hnmem : ws ∉ removeFirst room.clients ws :=
              not_mem_removeFirst_self room.clients ws (hcount code room hrc hgr)
            simp only [handleDisconnect, getConn_rooms_update, hrc, getKey_setKey_self]
            rw [if_neg hh, if_neg hnmem]
          · simp only [handleDisconnect, hrc, hgr]
            rw [if_neg hh, if_neg hmem]
            dsimp only
            simp only [handleDisconnect, hrc, hgr]
            rw [if_neg hh, if_neg hmem]

/-- Witness for C8: guest 1 of `wState` leaves; the second teardown is a
no-op pair. -/
theorem disconnect_idempotent_witness :
    handleDisconnect (handleDisconnect wState 1).1 1 = ((handleDisconnect wState 1).1, []) :=
  (disconnect_idempotent wState 1 (by decide)
    (fun code room h1 h2 => by
      have h0 : (getConn wState 1).roomCode = some "ABCDEF" := by decide
      rw [h0] at h1
      obtain rfl : "ABCDEF" = code := Option.some.inj h1
      have h3 : getKey wState.rooms "ABCDEF" = some wRoom := by decide
      rw [h3] at h2
      obtain rfl : wRoom = room := Option.some.inj h2
      decide)).2

/-! ### C2: the playerData-keys invariant -/

/-- C2 counterexample trace: two guests join, the first leaves, the next
joiner is numbered from the shrunk length and reissues `"player_2"`, and
then the original `"player_2"` leaves, deleting the key both guests share. -/
def trC2 : List Event :=
  [ Event.create 0 "ABCDEF" "h"
  , Event.inbound 1 (InMsg.join_room "ABCDEF" "n1")
  , Event.inbound 2 (InMsg.join_room "ABCDEF" "n2")
  , Event.closeEvt 1
  , Event.inbound 3 (InMsg.join_room "ABCDEF" "n3")
  , Event.closeEvt 2 ]

/-- C2 counterexample: after the well-formed event sequence `trC2` the room
`"ABCDEF"` is still registered but the keys of its `playerData` (just
`"host"`) are NOT the set {"host"} ∪ {playerId of every guest} (guest 3
holds playerId `"player_2"`, whose entry was deleted when connection 2
left), refuting the claimed invariant. -/
theorem playerData_keys_invariant_fails :
    wfTrace initState trC2 = true ∧
    c2holdsAt (runTrace initState trC2) "ABCDEF" = false := by
  decide

/-- The inductive whole-state invariant behind the amended C2: registry keys
are unique (a JS `Map`); every member of a room's guest list is bound to
that room as a non-host; each room's `playerData` keys are unique; and each
`playerData` key is `"host"` or the playerId of some current guest. -/
def Inv (s : ServerState) : Prop :=
  (keysOf s.rooms).Nodup ∧
  ∀ code room, getKey s.rooms code = some room →
    (∀ c ∈ room.clients,
      (getConn s c).roomCode = some code ∧ (getConn s c).isHost = false) ∧
    (keysOf room.playerData).Nodup ∧
    (∀ k ∈ keysOf room.playerData, k = "host" ∨ k ∈ guestIds s room)

theorem inv_initState : Inv initState := by
  refine ⟨List.nodup_nil, ?_⟩
  intro code room hg
  exact absurd hg (by simp [initState, getKey])

theorem guestIds_congr (s s' : ServerState) (room : Room)
    (h : ∀ c ∈ room.clients, (getConn s' c).playerId = (getConn s c).playerId) :
    guestIds s' room = guestIds s room := by
  simp only [guestIds]
  exact List.map_congr_left h

/-- Overwriting a registered room with one having the same member list and
the same `playerData` keys preserves the invariant. -/
theorem inv_setRoom (s : ServerState) (code : String) (room room' : Room)
    (hInv : Inv s) (hr : getKey s.rooms code = some room)
    (hc : room'.clients = room.clients)
    (hk : keysOf room'.playerData = keysOf room.playerData) :
    Inv { s with rooms := setKey s.rooms code room' } := by
  obtain ⟨hnd, hrooms⟩ := hInv
  refine ⟨nodup_keysOf_setKey _ _ _ hnd, ?_⟩
  intro code' r' hg
  by_cases he : code = code'
  · subst he
    rw [getKey_setKey_self] at hg
    obtain rfl : room' = r' := Option.some.inj hg
    obtain ⟨hmem, hndpd, hkeys⟩ := hrooms code room hr
    refine ⟨?_, ?_, ?_⟩
    · intro c hcmem
      rw [hc] at hcmem
      exact hmem c hcmem
    · rw [hk]
      exact hndpd
    · intro k hk2
      rw [hk] at hk2
      rcases hkeys k hk2 with h1 | h1
      · exact Or.inl h1
      · refine Or.inr ?_
        simp only [guestIds, hc]
        exact h1
  · rw [getKey_setKey_ne _ _ _ _ he] at hg
    obtain ⟨hmem, hndpd, hkeys⟩ := hrooms code' r' hg
    exact ⟨hmem, hndpd, hkeys⟩

theorem broadcastChat_state (s : ServerState) (ws : Nat) (m : Val) :
    (broadcastChat s ws m).1 = s := by
  simp only [broadcastChat]
  split
  · rfl
  · split
    · rfl
    · split <;> rfl

theorem broadcastInteraction_state (s : ServerState) (ws : Nat) (o a d : Val) :
    (broadcastInteraction s ws o a d).1 = s := by
  simp only [broadcastInteraction]
  split
  · rfl
  · split
    · rfl
    · split <;> rfl

theorem broadcastEnemyCapture_state (s : ServerState) (ws : Nat) (a b : Val) :
    (broadcastEnemyCapture s ws a b).1 = s := by
  simp only [broadcastEnemyCapture]
  split
  · rfl
  · split
    · rfl
    · split <;> rfl

/-- Invariant preservation for the registry insertion performed by
`createRoom`: a fresh code, an empty member list, `playerData = {host}`. -/
theorem inv_create_step (s : ServerState) (ws : Nat) (code : String)
    (room0 : Room) (conn' : Conn)
    (hrc0 : room0.clients = [])
    (hpd0 : keysOf room0.playerData = ["host"])
    (hInv : Inv s) (_hfresh : getKey s.rooms code = none)
    (hunbound : (getConn s ws).roomCode = none) :
    Inv (setConn { s with rooms := setKey s.rooms code room0 } ws conn') := by
  obtain ⟨hnd, hrooms⟩ := hInv
  refine ⟨?_, ?_⟩
  · show (keysOf (setKey s.rooms code room0)).Nodup
    exact nodup_keysOf_setKey _ _ _ hnd
  · intro code' r' hg
    have hg' : getKey (setKey s.rooms code room0) code' = some r' := hg
    by_cases he : code = code'
    · subst he
      rw [getKey_setKey_self] at hg'
      obtain rfl : room0 = r' := Option.some.inj hg'
      refine ⟨?_, ?_, ?_⟩
      · intro c hcmem
        rw [hrc0] at hcmem
        exact absurd hcmem (List.not_mem_nil c)
      · rw [hpd0]
        exact List.nodup_singleton _
      · intro k hk2
        rw [hpd0] at hk2
        exact Or.inl (List.mem_singleton.mp hk2)
    · rw [getKey_setKey_ne _ _ _ _ he] at hg'
      obtain ⟨hmem, hndpd, hkeys⟩ := hrooms code' r' hg'
      refine ⟨?_, hndpd, ?_⟩
      · intro c hcmem
        have hold := hmem c hcmem
        have hcne : ws ≠ c := by
          intro he'
          rw [← he'] at hold
          rw [hunbound] at hold
          exact Option.noConfusion hold.1
        show (getConn (setConn { s with rooms := setKey s.rooms code room0 } ws conn') c).roomCode
            = some code' ∧
          (getConn (setConn { s with rooms := setKey s.rooms code room0 } ws conn') c).isHost
            = false
        rw [getConn_setConn_ne _ ws c conn' hcne]
        exact hold
      · intro k hk2
        rcases hkeys k hk2 with h1 | h1
        · exact Or.inl h1
        · refine Or.inr ?_
          rcases List.mem_map.mp h1 with ⟨c, hcm, hpid2⟩
          have hold := hmem c hcm
          have hcne : ws ≠ c := by
            intro he'
            rw [← he'] at hold
            rw [hunbound] at hold
            exact Option.noConfusion hold.1
          show k ∈ List.map
            (fun c => (getConn (setConn { s with rooms := setKey s.rooms code room0 } ws conn') c).playerId)
            r'.clients
          refine List.mem_map.mpr ⟨c, hcm, ?_⟩
          rw [getConn_setConn_ne _ ws c conn' hcne]
          exact hpid2

theorem inv_createRoom (s : ServerState) (ws : Nat) (code pinfo : String)
    (hInv : Inv s) (hfresh : getKey s.rooms code = none)
    (hunbound : (getConn s ws).roomCode = none) :
    Inv (createRoom s ws code pinfo).1 :=
  inv_create_step s ws code _ _ rfl rfl hInv hfresh hunbound

/-- Invariant preservation for the member/state mutation performed by a
successful `joinRoom`: the joiner is appended and bound, its fresh entry is
keyed by its playerId. -/
theorem inv_join_step (s : ServerState) (ws : Nat) (code pid : String)
    (room : Room) (newRec : PlayerRecord) (conn' : Conn)
    (hcrc : conn'.roomCode = some code)
    (hch : conn'.isHost = false)
    (hcpid : conn'.playerId = pid)
    (room1 : Room)
    (hr1c : room1.clients = room.clients ++ [ws])
    (hr1pd : room1.playerData = setKey room.playerData pid newRec)
    (hInv : Inv s) (hgr : getKey s.rooms code = some room)
    (hunbound : (getConn s ws).roomCode = none) :
    Inv { setConn s ws conn' with rooms := setKey s.rooms code room1 } := by
  obtain ⟨hnd, hrooms⟩ := hInv
  refine ⟨?_, ?_⟩
  · show (keysOf (setKey s.rooms code room1)).Nodup
    exact nodup_keysOf_setKey _ _ _ hnd
  · intro code' r' hg
    have hg' : getKey (setKey s.rooms code room1) code' = some r' := hg
    by_cases he : code = code'
    · subst he
      rw [getKey_setKey_self] at hg'
      obtain rfl : room1 = r' := Option.some.inj hg'
      refine ⟨?_, ?_, ?_⟩
      · intro c hcmem
        rw [hr1c] at hcmem
        show (getConn (setConn s ws conn') c).roomCode = some code ∧
          (getConn (setConn s ws conn') c).isHost = false
        rcases List.mem_append.mp hcmem with hcm | hcm
        · have hold := (hrooms code room hgr).1 c hcm
          have hcne : ws ≠ c := by
            intro he'
            rw [← he'] at hold
            rw [hunbound] at hold
            exact Option.noConfusion hold.1
          rw [getConn_setConn_ne s ws c conn' hcne]
          exact hold
        · obtain rfl : c = ws := List.mem_singleton.mp hcm
          rw [getConn_setConn_self]
          exact ⟨hcrc, hch⟩
      · rw [hr1pd]
        exact nodup_keysOf_setKey _ _ _ (hrooms code room hgr).2.1
      · intro k hk2
        rw [hr1pd] at hk2
        rcases mem_keysOf_setKey _ _ _ _ hk2 with h1 | h1
        · rcases (hrooms code room hgr).2.2 k h1 with h2 | h2
          · exact Or.inl h2
          · refine Or.inr ?_
            rcases List.mem_map.mp h2 with ⟨c, hcm, hpid2⟩
            have hold := (hrooms code room hgr).1 c hcm
            have hcne : ws ≠ c := by
              intro he'
              rw [← he'] at hold
              rw [hunbound] at hold
              exact Option.noConfusion hold.1
            show k ∈ List.map (fun c => (getConn (setConn s ws conn') c).playerId) room1.clients
            refine List.mem_map.mpr ⟨c, ?_, ?_⟩
            · rw [hr1c]
              exact List.mem_append_left _ hcm
            · rw [getConn_setConn_ne s ws c conn' hcne]
              exact hpid2
        · refine Or.inr ?_
          show k ∈ List.map (fun c => (getConn (setConn s ws conn') c).playerId) room1.clients
          refine List.mem_map.mpr ⟨ws, ?_, ?_⟩
          · rw [hr1c]
            exact List.mem_append_right _ (List.mem_singleton.mpr rfl)
          · rw [getConn_setConn_self, hcpid]
            exact h1.symm
    · rw [getKey_setKey_ne _ _ _ _ he] at hg'
      obtain ⟨hmem, hndpd, hkeys⟩ := hrooms code' r' hg'
      refine ⟨?_, hndpd, ?_⟩
      · intro c hcmem
        have hold := hmem c hcmem
        have hcne : ws ≠ c := by
          intro he'
          rw [← he'] at hold
          rw [hunbound] at hold
          exact Option.noConfusion hold.1
        show (getConn (setConn s ws conn') c).roomCode = some code' ∧
          (getConn (setConn s ws conn') c).isHost = false
        rw [getConn_setConn_ne s ws c conn' hcne]
        exact hold
      · intro k hk2
        rcases hkeys k hk2 with h1 | h1
        · exact Or.inl h1
        · refine Or.inr ?_
          rcases List.mem_map.mp h1 with ⟨c, hcm, hpid2⟩
          have hold := hmem c hcm
          have hcne : ws ≠ c := by
            intro he'
            rw [← he'] at hold
            rw [hunbound] at hold
            exact Option.noConfusion hold.1
          show k ∈ List.map (fun c => (getConn (setConn s ws conn') c).playerId) r'.clients
          refine List.mem_map.mpr ⟨c, hcm, ?_⟩
          rw [getConn_setConn_ne s ws c conn' hcne]
          exact hpid2

theorem inv_joinRoom (s : ServerState) (ws : Nat) (mrc pinfo : String)
    (hInv : Inv s) (hunbound : (getConn s ws).roomCode = none) :
    Inv (joinRoom s ws mrc pinfo).1 := by
  simp only [joinRoom]
  split
  · exact hInv
  next room hgr =>
    split
    · exact hInv
    · exact inv_join_step s ws (jsToUpper mrc)
        ("player_" ++ toString (room.clients.length + 1)) room
        { info := pinfo, position := Val.vVec 0 0 0,
          animState := Val.vInt 0, sprinting := Val.vBool false }
        _ rfl rfl rfl _ rfl rfl hInv hgr hunbound

/-- Invariant preservation for the host branch of `handleDisconnect`:
closing the guests touches only `isOpen`, and the room is deleted. -/
theorem inv_host_teardown (s : ServerState) (_ws : Nat) (code : String) (room : Room)
    (hInv : Inv s) (_hgr : getKey s.rooms code = some room) :
    Inv { (hostTeardown s room.clients).1 with
          rooms := delKey (hostTeardown s room.clients).1.rooms code } := by
  obtain ⟨hnd, hrooms⟩ := hInv
  refine ⟨?_, ?_⟩
  · show (keysOf (delKey (hostTeardown s room.clients).1.rooms code)).Nodup
    rw [hostTeardown_rooms]
    exact nodup_keysOf_delKey _ _ hnd
  · intro code' r' hg
    have hg' : getKey (delKey (hostTeardown s room.clients).1.rooms code) code' = some r' := hg
    rw [hostTeardown_rooms] at hg'
    have hne : code ≠ code' := by
      intro he
      subst he
      rw [getKey_delKey_self _ _ hnd] at hg'
      exact Option.noConfusion hg'
    rw [getKey_delKey_ne _ _ _ hne] at hg'
    obtain ⟨hmem, hndpd, hkeys⟩ := hrooms code' r' hg'
    refine ⟨?_, hndpd, ?_⟩
    · intro c hcmem
      have hold := hmem c hcmem
      have hattr := hostTeardown_conn_attrs room.clients s c
      constructor
      · show (getConn (hostTeardown s room.clients).1 c).roomCode = some code'
        rw [hattr.1]
        exact hold.1
      · show (getConn (hostTeardown s room.clients).1 c).isHost = false
        rw [hattr.2.1]
        exact hold.2
    · intro k hk2
      rcases hkeys k hk2 with h1 | h1
      · exact Or.inl h1
      · refine Or.inr ?_
        show k ∈ List.map (fun c => (getConn (hostTeardown s room.clients).1 c).playerId) r'.clients
        have hcongr :
            List.map (fun c => (getConn (hostTeardown s room.clients).1 c).playerId) r'.clients
              = List.map (fun c => (getConn s c).playerId) r'.clients :=
          List.map_congr_left
            (fun c _ => (hostTeardown_conn_attrs room.clients s c).2.2.1)
        rw [hcongr]
        exact h1

/-- Invariant preservation for the guest branch of `handleDisconnect`: one
occurrence of the leaver and its (unique) `playerData` key are removed. -/
theorem inv_guest_leave (s : ServerState) (ws : Nat) (code : String) (room : Room)
    (room1 : Room)
    (hr1c : room1.clients = removeFirst room.clients ws)
    (hr1pd : room1.playerData = delKey room.playerData (getConn s ws).playerId)
    (hInv : Inv s) (hgr : getKey s.rooms code = some room) :
    Inv { s with rooms := setKey s.rooms code room1 } := by
  obtain ⟨hnd, hrooms⟩ := hInv
  refine ⟨nodup_keysOf_setKey _ _ _ hnd, ?_⟩
  intro code' r' hg
  have hg' : getKey (setKey s.rooms code room1) code' = some r' := hg
  by_cases he : code = code'
  · subst he
    rw [getKey_setKey_self] at hg'
    obtain rfl : room1 = r' := Option.some.inj hg'
    obtain ⟨hmem, hndpd, hkeys⟩ := hrooms code room hgr
    refine ⟨?_, ?_, ?_⟩
    · intro c hcmem
      rw [hr1c] at hcmem
      exact hmem c (mem_of_mem_removeFirst _ _ _ hcmem)
    · rw [hr1pd]
      exact nodup_keysOf_delKey _ _ hndpd
    · intro k hk2
      rw [hr1pd] at hk2
      have hkmem : k ∈ keysOf room.playerData := mem_keysOf_delKey _ _ _ hk2
      have hkne : k ≠ (getConn s ws).playerId := ne_of_mem_keysOf_delKey _ _ _ hndpd hk2
      rcases hkeys k hkmem with h1 | h1
      · exact Or.inl h1
      · refine Or.inr ?_
        rcases List.mem_map.mp h1 with ⟨c, hcm, hpid2⟩
        have hcne : c ≠ ws := by
          intro he'
          subst he'
          exact hkne hpid2.symm
        show k ∈ List.map (fun c => (getConn s c).playerId) room1.clients
        refine List.mem_map.mpr ⟨c, ?_, hpid2⟩
        rw [hr1c]
        exact mem_removeFirst_of_ne _ _ _ hcm hcne
  · rw [getKey_setKey_ne _ _ _ _ he] at hg'
    exact hrooms code' r' hg'

theorem inv_handleDisconnect (s : ServerState) (ws : Nat) (hInv : Inv s) :
    Inv (handleDisconnect s ws).1 := by
  simp only [handleDisconnect]
  split
  · exact hInv
  next code hrc =>
    split
    · exact hInv
    next room hgr =>
      split
      · exact inv_host_teardown s ws code room hInv hgr
      · split
        · exact inv_guest_leave s ws code room _ rfl rfl hInv hgr
        · exact hInv

theorem inv_broadcastPosition (s : ServerState) (ws : Nat) (pos : Val)
    (hInv : Inv s) : Inv (broadcastPosition s ws pos).1 := by
  simp only [broadcastPosition]
  split
  · exact hInv
  next code hrc =>
    split
    · exact hInv
    next room hgr =>
      split
      all_goals
        split
        next rec hpd =>
          exact inv_setRoom s code room _ hInv hgr rfl (keysOf_setKey_of_mem _ _ _ _ hpd)
        next hpd =>
          exact inv_setRoom s code room _ hInv hgr rfl rfl

theorem inv_broadcastAnimation (s : ServerState) (ws : Nat) (a sp : Val)
    (hInv : Inv s) : Inv (broadcastAnimation s ws a sp).1 := by
  simp only [broadcastAnimation]
  split
  · exact hInv
  next code hrc =>
    split
    · exact hInv
    next room hgr =>
      split
      all_goals
        split
        next rec hpd =>
          exact inv_setRoom s code room _ hInv hgr rfl (keysOf_setKey_of_mem _ _ _ _ hpd)
        next hpd =>
          exact inv_setRoom s code room _ hInv hgr rfl rfl

theorem inv_broadcastEnvironment (s : ServerState) (ws : Nat)
    (d : List (String × Val)) (hInv : Inv s) : Inv (broadcastEnvironment s ws d).1 := by
  simp only [broadcastEnvironment]
  split
  · exact hInv
  next code hrc =>
    split
    · exact hInv
    next room hgr =>
      split
      · exact inv_setRoom s code room _ hInv hgr rfl rfl
      · exact hInv

theorem inv_broadcastPuzzle (s : ServerState) (ws : Nat) (pid : String) (st : Val)
    (hInv : Inv s) : Inv (broadcastPuzzle s ws pid st).1 := by
  simp only [broadcastPuzzle]
  split
  · exact hInv
  next code hrc =>
    split
    · exact hInv
    next room hgr =>
      split
      all_goals exact inv_setRoom s code room _ hInv hgr rfl rfl

theorem inv_broadcastEnemyState (s : ServerState) (ws : Nat) (d : EnemyData)
    (hInv : Inv s) : Inv (broadcastEnemyState s ws d).1 := by
  simp only [broadcastEnemyState]
  split
  · exact hInv
  next code hrc =>
    split
    · exact hInv
    next room hgr =>
      split
      · exact inv_setRoom s code room _ hInv hgr rfl rfl
      · exact hInv

theorem inv_runEvent (s : ServerState) (e : Event) (hInv : Inv s)
    (hwf : wfEvent s e = true) : Inv (runEvent s e) := by
  cases e with
  | create ws code pinfo =>
    simp only [wfEvent, Bool.and_eq_true, Option.isNone_iff_eq_none] at hwf
    exact inv_createRoom s ws code pinfo hInv hwf.1 hwf.2
  | closeEvt ws =>
    exact inv_handleDisconnect s ws hInv
  | inbound ws msg =>
    cases msg with
    | join_room rc pi =>
      simp only [wfEvent, Option.isNone_iff_eq_none] at hwf
      exact inv_joinRoom s ws rc pi hInv hwf
    | player_position p => exact inv_broadcastPosition s ws p hInv
    | player_animation a sp => exact inv_broadcastAnimation s ws a sp hInv
    | chat_message m =>
      show Inv (broadcastChat s ws m).1
      rw [broadcastChat_state]
      exact hInv
    | environment_update d => exact inv_broadcastEnvironment s ws d hInv
    | puzzle_update pid st => exact inv_broadcastPuzzle s ws pid st hInv
    | interaction o a d =>
      show Inv (broadcastInteraction s ws o a d).1
      rw [broadcastInteraction_state]
      exact hInv
    | enemy_state d => exact inv_broadcastEnemyState s ws d hInv
    | enemy_capture a b =>
      show Inv (broadcastEnemyCapture s ws a b).1
      rw [broadcastEnemyCapture_state]
      exact hInv
    | maze_data d => exact hInv
    | leave_room => exact inv_handleDisconnect s ws hInv
    | unknown => exact hInv

theorem inv_runTrace :
    ∀ (tr : List Event) (s : ServerState), Inv s → wfTrace s tr = true →
      Inv (runTrace s tr)
  | [], _, h, _ => h
  | e :: rest, s, h, hwf => by
    simp only [wfTrace, Bool.and_eq_true] at hwf
    exact inv_runTrace rest _ (inv_runEvent s e h hwf.1) hwf.2

/-- C2 amended: for every room reachable by a well-formed event sequence
(fresh generated codes; `create_room`/`join_room` only from connections not
already bound to a room), the keys of its `playerData` are a SUBSET of
{"host"} ∪ {playerId of every connection in its guest list}. The claimed
set EQUALITY fails (see the counterexample): after a departure followed by a
join, sequential numbering reissues a duplicate playerId, and the next
departure of a duplicate holder deletes the key the remaining guest still
uses. -/
theorem playerData_keys_subset (tr : List Event) (code : String) (room : Room)
    (hwf : wfTrace initState tr = true)
    (hr : getKey (runTrace initState tr).rooms code = some room) :
    ∀ k ∈ keysOf room.playerData,
      k = "host" ∨ k ∈ guestIds (runTrace initState tr) room := by
  have hInv := inv_runTrace tr initState inv_initState hwf
  exact (hInv.2 code room hr).2.2

/-- Witness for C2 (amended): after `create` + one `join`, the key
`"player_1"` of the room's `playerData` is the playerId of a current guest. -/
theorem playerData_keys_subset_witness :
    "player_1" = "host" ∨
      "player_1" ∈ guestIds
        (runTrace initState
          [Event.create 0 "ABCDEF" "h", Event.inbound 1 (InMsg.join_room "ABCDEF" "n1")])
        { host := 0
          clients := [1]
          hostInfo := "h"
          playerData := [("host", hostRec), ("player_1", guestRec "n1")]
          environmentState := []
          puzzleStates := []
          enemyStates := [] } :=
  playerData_keys_subset
    [Event.create 0 "ABCDEF" "h", Event.inbound 1 (InMsg.join_room "ABCDEF" "n1")]
    "ABCDEF" _ (by decide) (by decide) "player_1" (by decide)

end GodotServer
